import Mathlib

/-! FunctorBase: parameter registry, index allocation and tree traversals.

A shallow embedding of `src/FunctorBase.cc`: the single-context build (the
`#else` branches of `OMP_ON`) throughout, and the multi-context build of the
two registry operations in the definitions whose names end in `OMP`.

Representation:

* A `Variable*` is the identity of a Variable object, a `VarId`; the null
  pointer is `none` in `Option VarId`.
* A `FunctorBase*` is the identity of a component object, a `CompId`.
* The pointer structure `components` of an acyclic composite is unfolded into
  the inductive type `FunctorBase`: a node carries the identity of its object
  (`self`, the `this` pointer of a member call) and its children in
  `components` order.  The recursive member functions are structural
  recursions over this unfolding.
* All other data members live in `State`, keyed by the object identity, so
  that two occurrences of one object share their members.
* `std::map<Variable*, std::set<FunctorBase*> >` is an association list with
  unique keys whose values are finite sets.  The order in which the map is
  iterated is not represented: the only iteration, in `registerParameter`,
  computes whether some key holds a given index.
* `Variable::index` (an `int`) is an `Int`, and the scan counter
  `unusedIndex` (an `unsigned int`) is a `Nat`, neither of them wrapped: the
  two agree with the 32-bit code while fewer than `2^31` Variables are keyed
  in the registry.  The cast `(unsigned int) var->getIndex()` of a negative
  index (the sentinel `-1`) is modelled by `toUnsigned`.
* The constant counter `totalConstants` (an `int`) and the argument of
  `registerConstants` (an `unsigned int`) are added modulo `2^32`, as the
  code adds them: there a single call reaches the wrap-around.
* `fptype`, its comparison `!=` and the capacity `maxParams` come from a
  header that is not part of the sources and are parameters.  The global
  arrays are functions from positions to values, of `maxParams` entries; a
  snapshot is the list of its entries.  An access outside an array has no
  defined behaviour and gives the result `none`.
-/

namespace GooFit

/-- Identity of a `Variable` object. -/
abbrev VarId := Nat

/-- Identity of a `FunctorBase` object. -/
abbrev CompId := Nat

/-- The unfolding of the `components` pointers below one component: the
identity of the object and its children, in `components` order. -/
inductive FunctorBase where
  | mk (self : CompId) (components : List FunctorBase)

/-- The type of `variableRegistry`. -/
abbrev Registry := AList (fun _ : VarId => Finset CompId)

/-- The set `variableRegistry[var]` as a value: empty for a Variable that is
not keyed. -/
def Registry.entry (r : Registry) (v : VarId) : Finset CompId :=
  (r.lookup v).getD ∅

/-- The statement `variableRegistry[var].insert(this)`. -/
def Registry.insertComponent (r : Registry) (v : VarId) (this : CompId) : Registry :=
  r.insert v (insert this (r.entry v))

/-- The statement `variableRegistry[var].erase(this)`; the subscript keys
`var` when it was not keyed. -/
def Registry.eraseComponent (r : Registry) (v : VarId) (this : CompId) : Registry :=
  r.insert v ((r.entry v).erase this)

/-- The global and per-object data that the member functions read and write. -/
structure State where
  /-- `FunctorBase::name`. -/
  name : CompId → String
  /-- `FunctorBase::properlyInitialised`. -/
  properlyInitialised : CompId → Bool
  /-- `FunctorBase::parameterList`. -/
  parameterList : CompId → List VarId
  /-- `FunctorBase::observables`, filled by `registerObservable`. -/
  observables : CompId → List VarId
  /-- `Variable::index`. -/
  index : VarId → Int
  /-- The global `variableRegistry`. -/
  variableRegistry : Registry

/-- Modelled from the spec: `Variable::getIndex()`, declared in a header that
is not part of the sources, reads the index of the Variable. -/
abbrev getIndex (s : State) (v : VarId) : Int :=
  s.index v

/-- Modelled from the spec: `FunctorBase::getName()`, declared in
`FunctorBase.hh`, reads the name of the component. -/
abbrev getName (s : State) (this : CompId) : String :=
  s.name this

/-- Modelled from the spec: the range `obsCBegin()` .. `obsCEnd()`, declared in
`FunctorBase.hh`, is the own observable list of the component. -/
abbrev obsRange (s : State) (this : CompId) : List VarId :=
  s.observables this

/-- The cast `(unsigned int) i` of an `int`: a negative value wraps to
`2^32 + i`. -/
def toUnsigned (i : Int) : Nat :=
  if i < 0 then (i + 2 ^ 32).toNat else i.toNat

/-- The inner `for` loop of `registerParameter`: `canUse` stays true when no
key of the registry holds `unusedIndex`. -/
def canUse (s : State) (unusedIndex : Nat) : Bool :=
  s.variableRegistry.keys.all (fun p => decide ((unusedIndex : Int) ≠ s.index p))

/-- The `while (true)` loop of `registerParameter`, run for at most `fuel`
iterations from `unusedIndex`; `none` when the iterations are used up. -/
def scanUnusedIndex (s : State) : Nat → Nat → Option Nat
  | 0, _ => none
  | fuel + 1, unusedIndex =>
    if canUse s unusedIndex then some unusedIndex
    else scanUnusedIndex s fuel (unusedIndex + 1)

/-- The member function `FunctorBase::registerParameter`, called on the object
`this`.  The result is `none` when the call does not return: `exit(1)` on a
null Variable, or a scan that is still running after one iteration more than
the registry has keys (`scanUnusedIndex_total` shows the scan never is). -/
def registerParameter (this : CompId) (var : Option VarId) (s : State) :
    Option (Nat × State) :=
  match var with
  | none => none
  | some v =>
    if v ∈ s.parameterList this then some (toUnsigned (getIndex s v), s)
    else
      let s1 : State :=
        { s with
          parameterList :=
            Function.update s.parameterList this (s.parameterList this ++ [v])
          variableRegistry := s.variableRegistry.insertComponent v this }
      if 0 > getIndex s1 v then
        match scanUnusedIndex s1 (s1.variableRegistry.keys.length + 1) 0 with
        | none => none
        | some unusedIndex =>
          let s2 : State := { s1 with index := Function.update s1.index v (unusedIndex : Int) }
          some (toUnsigned (getIndex s2 v), s2)
      else some (toUnsigned (getIndex s1 v), s1)

/-- The statements of `FunctorBase::unregisterParameter` that act on the
object `this` itself, for a non-null Variable: erase the first occurrence from
`parameterList`, erase `this` from the registry entry, and reset the index
when the entry has size 0. -/
def unregisterLocal (this : CompId) (v : VarId) (s : State) : State :=
  let s1 : State :=
    { s with
      parameterList :=
        Function.update s.parameterList this ((s.parameterList this).erase v)
      variableRegistry := s.variableRegistry.eraseComponent v this }
  if (s1.variableRegistry.entry v).card = 0 then
    { s1 with index := Function.update s1.index v (-1) }
  else s1

mutual
/-- The member function `FunctorBase::unregisterParameter`. -/
def unregisterParameter (var : Option VarId) : FunctorBase → State → State
  | .mk this components, s =>
    match var with
    | none => s
    | some v => unregisterParameterComponents var components (unregisterLocal this v s)
/-- The loop `for i: components[i]->unregisterParameter(var)`. -/
def unregisterParameterComponents (var : Option VarId) :
    List FunctorBase → State → State
  | [], s => s
  | t :: ts, s => unregisterParameterComponents var ts (unregisterParameter var t s)
end

/-- The first loop of `getParameters` and of `getObservables`: push every
element of `own` that is not yet found in `ret`. -/
def pushNew (ret : List VarId) (own : List VarId) : List VarId :=
  own.foldl (fun acc p => if p ∈ acc then acc else acc ++ [p]) ret

mutual
/-- The member function `FunctorBase::getParameters`; `ret` is the vector
passed by reference, the result its contents on return. -/
def getParameters (s : State) : FunctorBase → List VarId → List VarId
  | .mk this components, ret =>
    getParametersComponents s components (pushNew ret (s.parameterList this))
/-- The loop `for i: components[i]->getParameters(ret)`. -/
def getParametersComponents (s : State) : List FunctorBase → List VarId → List VarId
  | [], ret => ret
  | t :: ts, ret => getParametersComponents s ts (getParameters s t ret)
end

mutual
/-- The member function `FunctorBase::getObservables`. -/
def getObservables (s : State) : FunctorBase → List VarId → List VarId
  | .mk this components, ret =>
    getObservablesComponents s components (pushNew ret (obsRange s this))
/-- The loop `for i: components[i]->getObservables(ret)`. -/
def getObservablesComponents (s : State) : List FunctorBase → List VarId → List VarId
  | [], ret => ret
  | t :: ts, ret => getObservablesComponents s ts (getObservables s t ret)
end

mutual
/-- The member function `FunctorBase::checkInitStatus`; `unInited` is the
vector passed by reference, the result its contents on return.  The function
is `const`: it returns no state. -/
def checkInitStatus (s : State) : FunctorBase → List String → List String
  | .mk this components, unInited =>
    checkInitStatusComponents s components
      (if !s.properlyInitialised this then unInited ++ [getName s this] else unInited)
/-- The loop `for i: components[i]->checkInitStatus(unInited)`. -/
def checkInitStatusComponents (s : State) : List FunctorBase → List String → List String
  | [], unInited => unInited
  | t :: ts, unInited => checkInitStatusComponents s ts (checkInitStatus s t unInited)
end

/-! ## Vocabulary of the properties -/

mutual
/-- The objects of a tree in depth-first pre-order, one entry per node. -/
def FunctorBase.nodes : FunctorBase → List CompId
  | .mk this components => this :: nodesOfComponents components
/-- The objects of a list of trees, in order. -/
def nodesOfComponents : List FunctorBase → List CompId
  | [] => []
  | t :: ts => t.nodes ++ nodesOfComponents ts
end

/-- The state before any registration: no parameter, an empty registry and
every index unassigned. -/
def initialState (name : CompId → String) (properlyInitialised : CompId → Bool)
    (observables : CompId → List VarId) : State :=
  { name := name
    properlyInitialised := properlyInitialised
    parameterList := fun _ => []
    observables := observables
    index := fun _ => -1
    variableRegistry := ∅ }

/-- The states reached from an initial state by calls of `registerParameter`
that return and calls of `unregisterParameter`. -/
inductive Reachable : State → Prop where
  | init (name : CompId → String) (properlyInitialised : CompId → Bool)
      (observables : CompId → List VarId) :
      Reachable (initialState name properlyInitialised observables)
  | register {s s' : State} (this : CompId) (v : VarId) (n : Nat) :
      Reachable s → registerParameter this (some v) s = some (n, s') → Reachable s'
  | unregister {s : State} (t : FunctorBase) (var : Option VarId) :
      Reachable s → Reachable (unregisterParameter var t s)

/-- The state of `registerParameter` after `push_back` and the insertion into
the registry, before the index is looked at. -/
def addParameter (this : CompId) (v : VarId) (s : State) : State :=
  { s with
    parameterList := Function.update s.parameterList this (s.parameterList this ++ [v])
    variableRegistry := s.variableRegistry.insertComponent v this }

/-- The agreement between parameter lists, registry and indices that every
reachable state has. -/
structure Consistent (s : State) : Prop where
  nodup : ∀ c, (s.parameterList c).Nodup
  mem_entry : ∀ c v, c ∈ s.variableRegistry.entry v ↔ v ∈ s.parameterList c
  index_of_empty : ∀ v, s.variableRegistry.entry v = ∅ → s.index v = -1
  index_of_ne_empty : ∀ v, s.variableRegistry.entry v ≠ ∅ → 0 ≤ s.index v
  index_unique : ∀ v w, 0 ≤ s.index v → s.index v = s.index w → v = w

/-- Two states that differ at most in which Variables are keyed with an empty
registry entry. -/
structure Unchanged (s s' : State) : Prop where
  name : s'.name = s.name
  properlyInitialised : s'.properlyInitialised = s.properlyInitialised
  parameterList : s'.parameterList = s.parameterList
  observables : s'.observables = s.observables
  index : s'.index = s.index
  entry : ∀ w, s'.variableRegistry.entry w = s.variableRegistry.entry w

mutual
/-- The reference of `getParameters` in the words of its contract: the own
parameter list of a node first, then each child in child order. -/
def preorderParameters (s : State) : FunctorBase → List VarId
  | .mk this components => s.parameterList this ++ preorderParametersComponents s components
/-- The concatenation over a list of children, in order. -/
def preorderParametersComponents (s : State) : List FunctorBase → List VarId
  | [] => []
  | t :: ts => preorderParameters s t ++ preorderParametersComponents s ts
end

/-- Remove every later duplicate: the head stays, and is deleted from the
rest once the rest has lost its own later duplicates. -/
def removeLaterDuplicates : List VarId → List VarId
  | [] => []
  | x :: xs => x :: (removeLaterDuplicates xs).filter (fun y => decide (y ≠ x))

/-- The state after a call of `registerParameter` with a non-null Variable. -/
def afterRegister (this : CompId) (v : VarId) (s : State) : State :=
  match registerParameter this (some v) s with
  | some (_, s') => s'
  | none => s

/-- An initial state: every component named `pdf` and properly initialised,
no observables. -/
def exampleInitial : State :=
  initialState (fun _ => "pdf") (fun _ => true) (fun _ => [])

/-- Component 0 has registered Variables 5 and 6, which hold indices 0 and 1. -/
def exampleTwo : State :=
  afterRegister 0 6 (afterRegister 0 5 exampleInitial)

/-- Component 0 has then unregistered Variable 5: index 0 is free again, and
Variable 5 stays keyed with an empty entry. -/
def exampleFreed : State :=
  unregisterParameter (some 5) (.mk 0 []) exampleTwo

/-- A parent 0 with the single child 1. -/
def exampleTree : FunctorBase := .mk 0 [.mk 1 []]

/-- Parent 0 and child 1 have both registered Variable 5; the parent has
registered Variable 6 as well. -/
def exampleShared : State :=
  afterRegister 1 5 exampleTwo

/-- Only the child 1 has registered Variable 5. -/
def exampleChildOnly : State :=
  afterRegister 1 5 exampleInitial

/-- A state that no sequence of calls produces: Variable 5 holds index 3 and
no component has registered it. -/
def exampleStray : State :=
  { exampleInitial with index := Function.update exampleInitial.index 5 3 }

/-- The object at the root of a tree. -/
def FunctorBase.self : FunctorBase → CompId
  | .mk this _ => this

/-- The children of the root of a tree. -/
def FunctorBase.components : FunctorBase → List FunctorBase
  | .mk _ components => components


/-! ## The constant block allocator -/

/-- The conversion of an `int` to `unsigned int`: the value modulo `2^32`. -/
def toUInt32 (i : Int) : Nat :=
  (i % 2 ^ 32).toNat

/-- The conversion of an `unsigned int` to `int`: the value modulo `2^32`,
read as a two's complement number. -/
def toInt32 (n : Nat) : Int :=
  if n % 2 ^ 32 < 2 ^ 31 then ((n % 2 ^ 32 : Nat) : Int)
  else ((n % 2 ^ 32 : Nat) : Int) - 2 ^ 32

/-- The global `totalConstants` (an `int`) and the member `cIndex` of every
component. -/
structure Constants where
  /-- The global `totalConstants`. -/
  totalConstants : Int
  /-- `FunctorBase::cIndex`. -/
  cIndex : CompId → Nat

/-- The member function `FunctorBase::registerConstants`, with `assert` active.
`maxParams` is the capacity constant of `GlobalCudaDefines.hh`, which is not
part of the sources, and `amount` the value of the `unsigned int` argument.
The sum `totalConstants + amount` of an `int` and an `unsigned int` is an
`unsigned int`, computed modulo `2^32`, in the assertion and in `+=`.  The
result is `none` when the assertion fails and the program aborts. -/
def registerConstants (maxParams : Nat) (this : CompId) (amount : Nat) (k : Constants) :
    Option (Nat × Constants) :=
  if (toUInt32 k.totalConstants + amount) % 2 ^ 32 < maxParams then
    let k1 : Constants :=
      { k with cIndex := Function.update k.cIndex this (toUInt32 k.totalConstants) }
    let k2 : Constants :=
      { k1 with totalConstants := toInt32 ((toUInt32 k1.totalConstants + amount) % 2 ^ 32) }
    some (k2.cIndex this, k2)
  else none

/-- The state of the allocator at start-up: `totalConstants = 1`, the first
constant being reserved for the number of events.  The constructor leaves
`cIndex` unset; the 0 here is never read. -/
def initialConstants : Constants :=
  { totalConstants := 1, cIndex := fun _ => 0 }

/-- Two blocks `[o1, o1 + n1)` and `[o2, o2 + n2)` of the constants array have
a position in common. -/
def blocksOverlap (o1 n1 o2 n2 : Nat) : Prop :=
  ∃ i : Nat, o1 ≤ i ∧ i < o1 + n1 ∧ o2 ≤ i ∧ i < o2 + n2


/-! ## The host arrays and the parameter-change cache

The element type `fptype` and the capacity `maxParams` are declared in
`GlobalCudaDefines.hh`, which is not part of the sources: they are parameters,
and so is the comparison `!=` of two `fptype` values.  The result `none` of an
operation says that it reads or writes outside an array, which has no defined
behaviour. -/

/-- The global arrays and the members of every component that the cache and
the normalisation use. -/
structure Host (fptype : Type) where
  /-- The contents of the global `host_params[maxParams]`. -/
  host_params : Nat → fptype
  /-- The contents of the global `host_normalisation[maxParams]`. -/
  host_normalisation : Nat → fptype
  /-- `FunctorBase::cachedParams`: `none` for the null pointer, otherwise the
  array allocated by `new fptype[n]`, of `n` entries. -/
  cachedParams : CompId → Option (List fptype)
  /-- `FunctorBase::parameters`, the position of the component in
  `host_normalisation`. -/
  parameters : CompId → Nat

mutual
/-- The member function `FunctorBase::recursiveSetNormalisation`. -/
def recursiveSetNormalisation {fptype : Type} (maxParams : Nat) (norm : fptype) :
    FunctorBase → Host fptype → Option (Host fptype)
  | .mk this components, h =>
    if h.parameters this < maxParams then
      recursiveSetNormalisationComponents maxParams norm components
        { h with
          host_normalisation := Function.update h.host_normalisation (h.parameters this) norm }
    else none
/-- The loop `for i: components[i]->recursiveSetNormalisation(norm)`. -/
def recursiveSetNormalisationComponents {fptype : Type} (maxParams : Nat) (norm : fptype) :
    List FunctorBase → Host fptype → Option (Host fptype)
  | [], h => some h
  | t :: ts, h =>
    match recursiveSetNormalisation maxParams norm t h with
    | none => none
    | some h1 => recursiveSetNormalisationComponents maxParams norm ts h1
end

/-- The read `host_params[(*v)->index]`: defined for an index from 0 up to
`maxParams - 1`. -/
def readParam {fptype : Type} (maxParams : Nat) (host_params : Nat → fptype) (index : Int) :
    Option fptype :=
  if 0 ≤ index ∧ index < (maxParams : Int) then some (host_params index.toNat) else none

/-- The loop of `parametersChanged` over the rest `params` of the parameter
sequence, with `counter` the next position of the snapshot.  Both operands of
`!=` are read before they are compared. -/
def parametersChangedLoop {fptype : Type} (ne : fptype → fptype → Bool) (maxParams : Nat)
    (s : State) (host_params : Nat → fptype) (cachedParams : List fptype) :
    List VarId → Nat → Option Bool
  | [], _ => some false
  | v :: params, counter =>
    match cachedParams[counter]?, readParam maxParams host_params (s.index v) with
    | some c, some x =>
      if ne c x then some true
      else parametersChangedLoop ne maxParams s host_params cachedParams params (counter + 1)
    | _, _ => none

/-- The member function `FunctorBase::parametersChanged`, called on the root
of `t`. -/
def parametersChanged {fptype : Type} (ne : fptype → fptype → Bool) (maxParams : Nat)
    (s : State) (h : Host fptype) (t : FunctorBase) : Option Bool :=
  match h.cachedParams t.self with
  | none => some true
  | some cachedParams =>
    parametersChangedLoop ne maxParams s h.host_params cachedParams (getParameters s t []) 0

/-- The loop of `storeParameters`: `cachedParams[counter++] = host_params[index]`
for the rest `params` of the parameter sequence. -/
def storeParametersLoop {fptype : Type} (maxParams : Nat) (s : State)
    (host_params : Nat → fptype) : List VarId → Nat → List fptype → Option (List fptype)
  | [], _, cachedParams => some cachedParams
  | v :: params, counter, cachedParams =>
    match readParam maxParams host_params (s.index v) with
    | none => none
    | some x =>
      if counter < cachedParams.length then
        storeParametersLoop maxParams s host_params params (counter + 1)
          (cachedParams.set counter x)
      else none

/-- The member function `FunctorBase::storeParameters`, called on the root of
`t`.  A null `cachedParams` is replaced by a fresh array of `params.size()`
entries, an allocated one is kept as it is.  `indeterminate` stands for the
content of the cells of a fresh array, which `new fptype[n]` does not
determine. -/
def storeParameters {fptype : Type} (maxParams : Nat) (indeterminate : fptype)
    (s : State) (h : Host fptype) (t : FunctorBase) : Option (Host fptype) :=
  let params := getParameters s t []
  let cachedParams : List fptype :=
    match h.cachedParams t.self with
    | none => List.replicate params.length indeterminate
    | some allocated => allocated
  match storeParametersLoop maxParams s h.host_params params 0 cachedParams with
  | none => none
  | some filled =>
    some { h with cachedParams := Function.update h.cachedParams t.self (some filled) }

/-- Modelled from the spec: the values of the floating-point type `fptype`,
as far as `!=` tells them apart: a number, or NaN. -/
inductive FloatValue where
  | number (x : Int)
  | nan
  deriving DecidableEq

/-- Modelled from the spec: the comparison `!=` of floating-point values.
Two numbers differ when they are not equal; NaN differs from every value,
itself included. -/
def FloatValue.ne : FloatValue → FloatValue → Bool
  | .number x, .number y => x != y
  | _, _ => true

/-- Arrays in which every entry is the number 1, no snapshot, and every
component at normalisation position 0. -/
def exampleHost : Host FloatValue :=
  { host_params := fun _ => .number 1
    host_normalisation := fun _ => .number 1
    cachedParams := fun _ => none
    parameters := fun _ => 0 }

/-- The host after Variable 5, at index 0, has taken the value NaN. -/
def exampleHostNaN : Host FloatValue :=
  { exampleHost with host_params := Function.update exampleHost.host_params 0 .nan }

/-- The host in which component 0 has a snapshot of one entry, taken when
Variable 5 was its only parameter. -/
def exampleHostStored : Host FloatValue :=
  { exampleHost with
    cachedParams := Function.update exampleHost.cachedParams 0 (some [.number 1]) }

/-- The host with that snapshot after the value of Variable 5, at index 0, has
changed from 1 to 2. -/
def exampleHostChanged : Host FloatValue :=
  { exampleHostStored with
    host_params := Function.update exampleHostStored.host_params 0 (.number 2) }

/-- Component 0 has registered Variable 5 only. -/
def exampleOne : State :=
  afterRegister 0 5 exampleInitial

/-- Some Variable of `params` meets a snapshot entry that differs from its
live value, position `i` of `params` being compared with position
`counter + i` of the snapshot. -/
def Mismatch {fptype : Type} (ne : fptype → fptype → Bool) (s : State)
    (host_params : Nat → fptype) (cachedParams : List fptype) (params : List VarId)
    (counter : Nat) : Prop :=
  ∃ (i : Nat) (v : VarId) (c : fptype), params[i]? = some v ∧
    cachedParams[counter + i]? = some c ∧
    ne c (host_params (s.index v).toNat) = true

/-- The index of every Variable of `params` is a position of the
parameter-value array. -/
def InBounds (maxParams : Nat) (s : State) (params : List VarId) : Prop :=
  ∀ v ∈ params, 0 ≤ s.index v ∧ s.index v < (maxParams : Int)

/-- The host in which component `c` has normalisation position `c + 2`. -/
def exampleHostSlots : Host FloatValue :=
  { exampleHost with parameters := fun c => c + 2 }


/-! ## The multi-context build

With `OMP_ON` the registry is the array `variableRegistry[MAX_THREADS]`, read
at `tid = omp_get_thread_num()`, which is an argument here.  The parameter
lists are members of the components and `index` is a member of the Variable:
neither of them is per thread. -/

/-- The data of the build with `OMP_ON`. -/
structure StateOMP where
  /-- `FunctorBase::name`. -/
  name : CompId → String
  /-- `FunctorBase::properlyInitialised`. -/
  properlyInitialised : CompId → Bool
  /-- `FunctorBase::parameterList`. -/
  parameterList : CompId → List VarId
  /-- `FunctorBase::observables`. -/
  observables : CompId → List VarId
  /-- `Variable::index`. -/
  index : VarId → Int
  /-- The global `variableRegistry[MAX_THREADS]`. -/
  variableRegistry : Nat → Registry

/-- The inner `for` loop of `registerParameter` with `OMP_ON`, over the keys
of `variableRegistry[tid]`. -/
def canUseOMP (S : StateOMP) (tid : Nat) (unusedIndex : Nat) : Bool :=
  (S.variableRegistry tid).keys.all (fun p => decide ((unusedIndex : Int) ≠ S.index p))

/-- The `while (true)` loop of `registerParameter` with `OMP_ON`, run for at
most `fuel` iterations. -/
def scanUnusedIndexOMP (S : StateOMP) (tid : Nat) : Nat → Nat → Option Nat
  | 0, _ => none
  | fuel + 1, unusedIndex =>
    if canUseOMP S tid unusedIndex then some unusedIndex
    else scanUnusedIndexOMP S tid fuel (unusedIndex + 1)

/-- The member function `FunctorBase::registerParameter` with `OMP_ON`, called
on the object `this` by the thread `tid`. -/
def registerParameterOMP (tid : Nat) (this : CompId) (var : Option VarId) (S : StateOMP) :
    Option (Nat × StateOMP) :=
  match var with
  | none => none
  | some v =>
    if v ∈ S.parameterList this then some (toUnsigned (S.index v), S)
    else
      let S1 : StateOMP :=
        { S with
          parameterList :=
            Function.update S.parameterList this (S.parameterList this ++ [v])
          variableRegistry :=
            Function.update S.variableRegistry tid
              ((S.variableRegistry tid).insertComponent v this) }
      if 0 > S1.index v then
        match scanUnusedIndexOMP S1 tid ((S1.variableRegistry tid).keys.length + 1) 0 with
        | none => none
        | some unusedIndex =>
          let S2 : StateOMP :=
            { S1 with index := Function.update S1.index v (unusedIndex : Int) }
          some (toUnsigned (S2.index v), S2)
      else some (toUnsigned (S1.index v), S1)

/-- The statements of `FunctorBase::unregisterParameter` with `OMP_ON` that act
on the object `this` itself, for a non-null Variable and the thread `tid`. -/
def unregisterLocalOMP (tid : Nat) (this : CompId) (v : VarId) (S : StateOMP) : StateOMP :=
  let S1 : StateOMP :=
    { S with
      parameterList :=
        Function.update S.parameterList this ((S.parameterList this).erase v)
      variableRegistry :=
        Function.update S.variableRegistry tid
          ((S.variableRegistry tid).eraseComponent v this) }
  if ((S1.variableRegistry tid).entry v).card = 0 then
    { S1 with index := Function.update S1.index v (-1) }
  else S1

mutual
/-- The member function `FunctorBase::unregisterParameter` with `OMP_ON`. -/
def unregisterParameterOMP (tid : Nat) (var : Option VarId) :
    FunctorBase → StateOMP → StateOMP
  | .mk this components, S =>
    match var with
    | none => S
    | some v => unregisterParameterComponentsOMP tid var components (unregisterLocalOMP tid this v S)
/-- The loop `for i: components[i]->unregisterParameter(var)` with `OMP_ON`. -/
def unregisterParameterComponentsOMP (tid : Nat) (var : Option VarId) :
    List FunctorBase → StateOMP → StateOMP
  | [], S => S
  | t :: ts, S =>
    unregisterParameterComponentsOMP tid var ts (unregisterParameterOMP tid var t S)
end

/-- The state the thread `tid` works on: the parameter lists, the indices and
its own registry. -/
def StateOMP.view (S : StateOMP) (tid : Nat) : State :=
  { name := S.name
    properlyInitialised := S.properlyInitialised
    parameterList := S.parameterList
    observables := S.observables
    index := S.index
    variableRegistry := S.variableRegistry tid }

/-- The state of `registerParameter` with `OMP_ON` after `push_back` and the
insertion into the registry of the thread. -/
def addParameterOMP (tid : Nat) (this : CompId) (v : VarId) (S : StateOMP) : StateOMP :=
  { S with
    parameterList := Function.update S.parameterList this (S.parameterList this ++ [v])
    variableRegistry :=
      Function.update S.variableRegistry tid
        ((S.variableRegistry tid).insertComponent v this) }

/-- The multi-context state before any registration. -/
def initialStateOMP (name : CompId → String) (properlyInitialised : CompId → Bool)
    (observables : CompId → List VarId) : StateOMP :=
  { name := name
    properlyInitialised := properlyInitialised
    parameterList := fun _ => []
    observables := observables
    index := fun _ => -1
    variableRegistry := fun _ => ∅ }

/-- The multi-context states reached by calls, one at a time, in which every
Variable `v` is passed to calls of the context `home v` only. -/
inductive ReachableOMP (home : VarId → Nat) : StateOMP → Prop where
  | init (name : CompId → String) (properlyInitialised : CompId → Bool)
      (observables : CompId → List VarId) :
      ReachableOMP home (initialStateOMP name properlyInitialised observables)
  | register {S S' : StateOMP} (this : CompId) (v : VarId) (n : Nat) :
      ReachableOMP home S →
      registerParameterOMP (home v) this (some v) S = some (n, S') → ReachableOMP home S'
  | unregister {S : StateOMP} (t : FunctorBase) (v : VarId) :
      ReachableOMP home S → ReachableOMP home (unregisterParameterOMP (home v) (some v) t S)

/-- The invariant of the multi-context states reached when every Variable
stays in its context `home v`. -/
structure ConsistentOMP (home : VarId → Nat) (S : StateOMP) : Prop where
  keys_home : ∀ tid v, v ∈ (S.variableRegistry tid).keys → home v = tid
  index_of_empty : ∀ v, (S.variableRegistry (home v)).entry v = ∅ → S.index v = -1
  index_of_ne_empty : ∀ tid v, (S.variableRegistry tid).entry v ≠ ∅ → 0 ≤ S.index v
  index_unique : ∀ v w, home v = home w → 0 ≤ S.index v → S.index v = S.index w → v = w

/-- The multi-context state after a call of `registerParameter` by the thread
`tid`. -/
def afterRegisterOMP (tid : Nat) (this : CompId) (v : VarId) (S : StateOMP) : StateOMP :=
  match registerParameterOMP tid this (some v) S with
  | some (_, S') => S'
  | none => S

/-- In context 0 component 0 has registered Variable 5; in context 1
component 1 has registered Variable 6.  Each is alone in its registry and
holds index 0. -/
def exampleOMPTwo : StateOMP :=
  afterRegisterOMP 1 1 6
    (afterRegisterOMP 0 0 5 (initialStateOMP (fun _ => "pdf") (fun _ => true) (fun _ => [])))

/-- In context 1 component 1 has then registered Variable 5 as well. -/
def exampleOMPShared : StateOMP :=
  afterRegisterOMP 1 1 5 exampleOMPTwo

/-- The assignment of Variable 7 to context 1 and of every other Variable to
context 0. -/
def exampleHome : VarId → Nat :=
  fun v => if v = 7 then 1 else 0

/-- In context 0 component 0 has registered Variables 5 and 6; in context 1
component 1 has registered Variable 7. -/
def exampleOMPApart : StateOMP :=
  afterRegisterOMP 1 1 7
    (afterRegisterOMP 0 0 6
      (afterRegisterOMP 0 0 5
        (initialStateOMP (fun _ => "pdf") (fun _ => true) (fun _ => []))))


/-! ## The registry -/

theorem entry_insertComponent_self (r : Registry) (v : VarId) (c : CompId) :
    (r.insertComponent v c).entry v = insert c (r.entry v) := by
  simp [Registry.insertComponent, Registry.entry]

theorem entry_insertComponent_ne (r : Registry) {v w : VarId} (c : CompId)
    (h : w ≠ v) : (r.insertComponent v c).entry w = r.entry w := by
  simp [Registry.insertComponent, Registry.entry, AList.lookup_insert_ne h]

theorem mem_keys_insertComponent (r : Registry) (v w : VarId) (c : CompId) :
    w ∈ (r.insertComponent v c).keys ↔ w = v ∨ w ∈ r.keys := by
  have := @AList.mem_insert _ _ _ w v (insert c (r.entry v)) r
  simpa [Registry.insertComponent, AList.mem_keys] using this

theorem entry_eraseComponent_self (r : Registry) (v : VarId) (c : CompId) :
    (r.eraseComponent v c).entry v = (r.entry v).erase c := by
  simp [Registry.eraseComponent, Registry.entry]

theorem entry_eraseComponent_ne (r : Registry) {v w : VarId} (c : CompId)
    (h : w ≠ v) : (r.eraseComponent v c).entry w = r.entry w := by
  simp [Registry.eraseComponent, Registry.entry, AList.lookup_insert_ne h]

theorem mem_keys_eraseComponent (r : Registry) (v w : VarId) (c : CompId) :
    w ∈ (r.eraseComponent v c).keys ↔ w = v ∨ w ∈ r.keys := by
  have := @AList.mem_insert _ _ _ w v ((r.entry v).erase c) r
  simpa [Registry.eraseComponent, AList.mem_keys] using this

theorem mem_keys_of_entry_ne_empty (r : Registry) (v : VarId)
    (h : r.entry v ≠ ∅) : v ∈ r.keys := by
  by_contra hk
  apply h
  have : r.lookup v = none := AList.lookup_eq_none.mpr hk
  simp [Registry.entry, this]

theorem entry_empty (v : VarId) : (∅ : Registry).entry v = ∅ := by
  simp [Registry.entry]

/-! ## The index scan -/

theorem canUse_iff (s : State) (u : Nat) :
    canUse s u = true ↔ ∀ p ∈ s.variableRegistry.keys, s.index p ≠ (u : Int) := by
  simp only [canUse, List.all_eq_true, decide_eq_true_eq]
  constructor
  · intro h p hp e
    exact h p hp e.symm
  · intro h p hp e
    exact h p hp e.symm

theorem scanUnusedIndex_some (s : State) :
    ∀ (fuel u n : Nat), scanUnusedIndex s fuel u = some n →
      canUse s n = true ∧ u ≤ n ∧ ∀ m, u ≤ m → m < n → canUse s m = false := by
  intro fuel
  induction fuel with
  | zero => intro u n h; simp [scanUnusedIndex] at h
  | succ k ih =>
    intro u n h
    unfold scanUnusedIndex at h
    by_cases hc : canUse s u = true
    · rw [if_pos hc] at h
      cases h
      exact ⟨hc, le_refl _, fun m h1 h2 => absurd h1 (by omega)⟩
    · rw [if_neg hc] at h
      obtain ⟨h1, h2, h3⟩ := ih (u + 1) n h
      refine ⟨h1, by omega, fun m hm1 hm2 => ?_⟩
      by_cases hmu : m = u
      · subst hmu; simpa using hc
      · exact h3 m (by omega) hm2

theorem scanUnusedIndex_none (s : State) :
    ∀ (fuel u : Nat), scanUnusedIndex s fuel u = none →
      ∀ m, u ≤ m → m < u + fuel → canUse s m = false := by
  intro fuel
  induction fuel with
  | zero => intro u _ m h1 h2; omega
  | succ k ih =>
    intro u h m h1 h2
    unfold scanUnusedIndex at h
    by_cases hc : canUse s u = true
    · rw [if_pos hc] at h; cases h
    · rw [if_neg hc] at h
      by_cases hmu : m = u
      · subst hmu; simpa using hc
      · exact ih (u + 1) h m (by omega) (by omega)

/-- The scan returns: among `0 .. n` some index is held by none of the `n`
keys of the registry. -/
theorem scanUnusedIndex_total (s : State) :
    ∃ n, scanUnusedIndex s (s.variableRegistry.keys.length + 1) 0 = some n := by
  cases h : scanUnusedIndex s (s.variableRegistry.keys.length + 1) 0 with
  | some n => exact ⟨n, rfl⟩
  | none =>
    exfalso
    have hall := scanUnusedIndex_none s _ 0 h
    have hsub : (Finset.range (s.variableRegistry.keys.length + 1)).image (fun m : Nat => (m : Int))
        ⊆ s.variableRegistry.keys.toFinset.image s.index := by
      intro x hx
      obtain ⟨m, hm, rfl⟩ := Finset.mem_image.mp hx
      have hm' := hall m (Nat.zero_le _) (by simpa using Finset.mem_range.mp hm)
      have : ¬ (∀ p ∈ s.variableRegistry.keys, s.index p ≠ (m : Int)) := by
        rw [← canUse_iff]; simp [hm']
      push_neg at this
      obtain ⟨p, hp, e⟩ := this
      exact Finset.mem_image.mpr ⟨p, List.mem_toFinset.mpr hp, e⟩
    have h1 := Finset.card_le_card hsub
    rw [Finset.card_image_of_injective _ Nat.cast_injective, Finset.card_range] at h1
    have h2 : (s.variableRegistry.keys.toFinset.image s.index).card
        ≤ s.variableRegistry.keys.length :=
      le_trans Finset.card_image_le (List.toFinset_card_le _)
    omega

/-! ## Traversals as folds over the pre-order list of nodes -/

/-- Induction over a tree together with its lists of children. -/
theorem functorBase_induction {P : FunctorBase → Prop} {Q : List FunctorBase → Prop}
    (hmk : ∀ c cs, Q cs → P (.mk c cs)) (hnil : Q [])
    (hcons : ∀ t ts, P t → Q ts → Q (t :: ts)) : (∀ t, P t) ∧ (∀ ts, Q ts) :=
  ⟨fun t => @FunctorBase.rec P Q hmk hnil hcons t,
   fun ts => @FunctorBase.rec_1 P Q hmk hnil hcons ts⟩

theorem nodes_ne_nil (t : FunctorBase) : t.nodes ≠ [] := by
  cases t; simp [FunctorBase.nodes]

theorem unregisterParameter_none (t : FunctorBase) (s : State) :
    unregisterParameter none t s = s := by
  cases t; simp [unregisterParameter]

theorem unregisterParameter_eq_foldl (v : VarId) :
    (∀ (t : FunctorBase) (s : State), unregisterParameter (some v) t s
        = t.nodes.foldl (fun st c => unregisterLocal c v st) s) ∧
    (∀ (ts : List FunctorBase) (s : State), unregisterParameterComponents (some v) ts s
        = (nodesOfComponents ts).foldl (fun st c => unregisterLocal c v st) s) := by
  apply functorBase_induction
  · intro c cs ih s
    simp [unregisterParameter, FunctorBase.nodes, ih]
  · intro s
    simp [unregisterParameterComponents, nodesOfComponents]
  · intro t ts iht ihts s
    simp [unregisterParameterComponents, nodesOfComponents, iht, ihts]

theorem pushNew_append (ret a b : List VarId) :
    pushNew ret (a ++ b) = pushNew (pushNew ret a) b := by
  simp [pushNew]

theorem getParameters_eq_pushNew (s : State) :
    (∀ (t : FunctorBase) (ret : List VarId), getParameters s t ret
        = pushNew ret (t.nodes.flatMap s.parameterList)) ∧
    (∀ (ts : List FunctorBase) (ret : List VarId), getParametersComponents s ts ret
        = pushNew ret ((nodesOfComponents ts).flatMap s.parameterList)) := by
  apply functorBase_induction
  · intro c cs ih ret
    simp [getParameters, FunctorBase.nodes, ih, pushNew_append]
  · intro ret
    simp [getParametersComponents, nodesOfComponents, pushNew]
  · intro t ts iht ihts ret
    simp [getParametersComponents, nodesOfComponents, iht, ihts, pushNew_append]

theorem getObservables_eq_pushNew (s : State) :
    (∀ (t : FunctorBase) (ret : List VarId), getObservables s t ret
        = pushNew ret (t.nodes.flatMap s.observables)) ∧
    (∀ (ts : List FunctorBase) (ret : List VarId), getObservablesComponents s ts ret
        = pushNew ret ((nodesOfComponents ts).flatMap s.observables)) := by
  apply functorBase_induction
  · intro c cs ih ret
    simp [getObservables, FunctorBase.nodes, ih, pushNew_append]
  · intro ret
    simp [getObservablesComponents, nodesOfComponents, pushNew]
  · intro t ts iht ihts ret
    simp [getObservablesComponents, nodesOfComponents, iht, ihts, pushNew_append]

/-! ## The local effect of the two registry operations -/

theorem toUnsigned_natCast (n : Nat) : toUnsigned (n : Int) = n := by
  have : ¬ ((n : Int) < 0) := by omega
  simp [toUnsigned, this]

theorem registerParameter_of_mem {this : CompId} {v : VarId} {s : State}
    (h : v ∈ s.parameterList this) :
    registerParameter this (some v) s = some (toUnsigned (s.index v), s) := by
  simp [registerParameter, h]

theorem registerParameter_of_assigned {this : CompId} {v : VarId} {s : State}
    (h : v ∉ s.parameterList this) (hi : 0 ≤ s.index v) :
    registerParameter this (some v) s
      = some (toUnsigned (s.index v), addParameter this v s) := by
  have : ¬ (s.index v < 0) := by omega
  simp [registerParameter, h, this, addParameter]

theorem registerParameter_of_unassigned {this : CompId} {v : VarId} {s : State}
    (h : v ∉ s.parameterList this) (hi : s.index v < 0) :
    ∃ n, scanUnusedIndex (addParameter this v s)
          ((addParameter this v s).variableRegistry.keys.length + 1) 0 = some n ∧
      registerParameter this (some v) s
        = some (n, { addParameter this v s with
                      index := Function.update s.index v (n : Int) }) := by
  obtain ⟨n, hn⟩ := scanUnusedIndex_total (addParameter this v s)
  refine ⟨n, hn, ?_⟩
  have hn' := hn
  simp only [addParameter] at hn'
  simp [registerParameter, h, hi, addParameter, hn', toUnsigned_natCast, getIndex]

/-- A call of `registerParameter` with a non-null Variable returns. -/
theorem registerParameter_returns (this : CompId) (v : VarId) (s : State) :
    ∃ n s', registerParameter this (some v) s = some (n, s') := by
  by_cases h : v ∈ s.parameterList this
  · exact ⟨_, _, registerParameter_of_mem h⟩
  · by_cases hi : s.index v < 0
    · obtain ⟨n, _, hn⟩ := registerParameter_of_unassigned h hi
      exact ⟨_, _, hn⟩
    · exact ⟨_, _, registerParameter_of_assigned h (by omega)⟩

theorem unregisterLocal_parameterList (this : CompId) (v : VarId) (s : State) :
    (unregisterLocal this v s).parameterList
      = Function.update s.parameterList this ((s.parameterList this).erase v) := by
  simp only [unregisterLocal]
  split <;> rfl

theorem unregisterLocal_entry_self (this : CompId) (v : VarId) (s : State) :
    (unregisterLocal this v s).variableRegistry.entry v
      = (s.variableRegistry.entry v).erase this := by
  simp only [unregisterLocal]
  split <;> simp [entry_eraseComponent_self]

theorem unregisterLocal_entry_ne (this : CompId) {v w : VarId} (s : State) (h : w ≠ v) :
    (unregisterLocal this v s).variableRegistry.entry w = s.variableRegistry.entry w := by
  simp only [unregisterLocal]
  split <;> simp [entry_eraseComponent_ne _ _ h]

theorem unregisterLocal_index_ne (this : CompId) {v w : VarId} (s : State) (h : w ≠ v) :
    (unregisterLocal this v s).index w = s.index w := by
  simp only [unregisterLocal]
  split <;> simp [Function.update_noteq h]

theorem unregisterLocal_index_of_empty (this : CompId) (v : VarId) (s : State)
    (h : (s.variableRegistry.entry v).erase this = ∅) :
    (unregisterLocal this v s).index v = -1 := by
  unfold unregisterLocal
  simp [entry_eraseComponent_self, h]

theorem unregisterLocal_index_of_ne_empty (this : CompId) (v : VarId) (s : State)
    (h : (s.variableRegistry.entry v).erase this ≠ ∅) :
    (unregisterLocal this v s).index v = s.index v := by
  unfold unregisterLocal
  simp [entry_eraseComponent_self, h]

theorem unregisterLocal_keys (this : CompId) (v w : VarId) (s : State) :
    w ∈ (unregisterLocal this v s).variableRegistry.keys
      ↔ w = v ∨ w ∈ s.variableRegistry.keys := by
  simp only [unregisterLocal]
  split <;> simp [mem_keys_eraseComponent]

theorem unregisterLocal_name (this : CompId) (v : VarId) (s : State) :
    (unregisterLocal this v s).name = s.name := by
  simp only [unregisterLocal]
  split <;> rfl

/-! ## The invariant of the reachable states -/

theorem initialState_consistent (name : CompId → String)
    (properlyInitialised : CompId → Bool) (observables : CompId → List VarId) :
    Consistent (initialState name properlyInitialised observables) where
  nodup := by intro c; simp [initialState]
  mem_entry := by intro c v; simp [initialState, entry_empty]
  index_of_empty := by intro v _; simp [initialState]
  index_of_ne_empty := by intro v h; simp [initialState, entry_empty] at h
  index_unique := by intro v w h; simp [initialState] at h

theorem addParameter_mem_entry {this : CompId} {v : VarId} {s : State}
    (hs : Consistent s) (c : CompId) (w : VarId) :
    c ∈ (addParameter this v s).variableRegistry.entry w
      ↔ w ∈ (addParameter this v s).parameterList c := by
  by_cases hw : w = v
  · subst hw
    by_cases hc : c = this
    · subst hc
      simp [addParameter, entry_insertComponent_self]
    · simp [addParameter, entry_insertComponent_self, hc, hs.mem_entry]
  · by_cases hc : c = this
    · subst hc
      simp [addParameter, entry_insertComponent_ne _ _ hw, hw, hs.mem_entry]
    · simp [addParameter, entry_insertComponent_ne _ _ hw, hc, hs.mem_entry]

theorem addParameter_entry_ne_empty (this : CompId) (v : VarId) (s : State) :
    (addParameter this v s).variableRegistry.entry v ≠ ∅ := by
  simp [addParameter, entry_insertComponent_self]

theorem addParameter_nodup {this : CompId} {v : VarId} {s : State}
    (hs : Consistent s) (h : v ∉ s.parameterList this) (c : CompId) :
    ((addParameter this v s).parameterList c).Nodup := by
  by_cases hc : c = this
  · subst hc
    simp only [addParameter, Function.update_same]
    exact List.Nodup.append (hs.nodup c) (List.nodup_singleton v)
      (by simpa [List.disjoint_singleton] using h)
  · simp only [addParameter, Function.update_noteq hc]
    exact hs.nodup c

theorem registerParameter_consistent {this : CompId} {v : VarId} {s s' : State} {n : Nat}
    (hs : Consistent s) (h : registerParameter this (some v) s = some (n, s')) :
    Consistent s' := by
  by_cases hm : v ∈ s.parameterList this
  · rw [registerParameter_of_mem hm] at h
    cases h
    exact hs
  · by_cases hi : s.index v < 0
    · obtain ⟨m, hscan, hr⟩ := registerParameter_of_unassigned hm hi
      rw [hr] at h
      cases h
      obtain ⟨hcan, -, -⟩ := scanUnusedIndex_some _ _ _ _ hscan
      rw [canUse_iff] at hcan
      have hfree : ∀ w, w ≠ v → 0 ≤ s.index w → s.index w ≠ (n : Int) := by
        intro w hw h0
        have hne : s.variableRegistry.entry w ≠ ∅ := by
          intro he
          have := hs.index_of_empty w he
          omega
        have hk : w ∈ (addParameter this v s).variableRegistry.keys := by
          simp only [addParameter]
          exact (mem_keys_insertComponent _ _ _ _).mpr
            (Or.inr (mem_keys_of_entry_ne_empty _ _ hne))
        exact hcan w hk
      refine ⟨addParameter_nodup hs hm, addParameter_mem_entry hs, ?_, ?_, ?_⟩
      · intro w hw
        have hwv : w ≠ v := by
          rintro rfl
          exact addParameter_entry_ne_empty this w s hw
        simp only [Function.update_noteq hwv]
        apply hs.index_of_empty
        simpa [addParameter, entry_insertComponent_ne _ _ hwv] using hw
      · intro w hw
        by_cases hwv : w = v
        · subst hwv; simp
        · simp only [Function.update_noteq hwv]
          apply hs.index_of_ne_empty
          simpa [addParameter, entry_insertComponent_ne _ _ hwv] using hw
      · intro a b h0 he
        by_cases ha : a = v <;> by_cases hb : b = v
        · rw [ha, hb]
        · subst ha
          simp only [Function.update_same, Function.update_noteq hb] at he h0
          exact absurd he.symm (hfree b hb (by omega))
        · subst hb
          simp only [Function.update_same, Function.update_noteq ha] at he h0
          exact absurd he (hfree a ha h0)
        · simp only [Function.update_noteq ha, Function.update_noteq hb] at he h0
          exact hs.index_unique a b h0 he
    · rw [registerParameter_of_assigned hm (by omega)] at h
      cases h
      refine ⟨addParameter_nodup hs hm, addParameter_mem_entry hs, ?_, ?_, ?_⟩
      · intro w hw
        have hwv : w ≠ v := by
          rintro rfl
          exact addParameter_entry_ne_empty this w s hw
        apply hs.index_of_empty
        simpa [addParameter, entry_insertComponent_ne _ _ hwv] using hw
      · intro w hw
        by_cases hwv : w = v
        · subst hwv
          show 0 ≤ s.index w
          omega
        · apply hs.index_of_ne_empty
          simpa [addParameter, entry_insertComponent_ne _ _ hwv] using hw
      · exact hs.index_unique

theorem unregisterLocal_consistent (this : CompId) (v : VarId) {s : State}
    (hs : Consistent s) : Consistent (unregisterLocal this v s) := by
  refine ⟨?_, ?_, ?_, ?_, ?_⟩
  · intro c
    rw [unregisterLocal_parameterList]
    by_cases hc : c = this
    · subst hc
      simpa using (hs.nodup c).erase v
    · simpa [Function.update_noteq hc] using hs.nodup c
  · intro c w
    rw [unregisterLocal_parameterList]
    by_cases hw : w = v
    · subst hw
      rw [unregisterLocal_entry_self]
      by_cases hc : c = this
      · subst hc
        simp [(hs.nodup c).mem_erase_iff]
      · simp [Function.update_noteq hc, hc, hs.mem_entry]
    · rw [unregisterLocal_entry_ne _ _ hw]
      by_cases hc : c = this
      · subst hc
        simp [List.mem_erase_of_ne hw, hs.mem_entry]
      · simp [Function.update_noteq hc, hs.mem_entry]
  · intro w hw
    by_cases hwv : w = v
    · subst hwv
      rw [unregisterLocal_entry_self] at hw
      exact unregisterLocal_index_of_empty this w s hw
    · rw [unregisterLocal_entry_ne _ _ hwv] at hw
      rw [unregisterLocal_index_ne _ _ hwv]
      exact hs.index_of_empty w hw
  · intro w hw
    by_cases hwv : w = v
    · subst hwv
      rw [unregisterLocal_entry_self] at hw
      rw [unregisterLocal_index_of_ne_empty this w s hw]
      apply hs.index_of_ne_empty
      intro he
      apply hw
      simp [he]
    · rw [unregisterLocal_entry_ne _ _ hwv] at hw
      rw [unregisterLocal_index_ne _ _ hwv]
      exact hs.index_of_ne_empty w hw
  · have key : ∀ a, 0 ≤ (unregisterLocal this v s).index a →
        (unregisterLocal this v s).index a = s.index a := by
      intro a h0
      by_cases ha : a = v
      · subst ha
        by_cases he : (s.variableRegistry.entry a).erase this = ∅
        · rw [unregisterLocal_index_of_empty this a s he] at h0
          omega
        · exact unregisterLocal_index_of_ne_empty this a s he
      · exact unregisterLocal_index_ne _ _ ha
    intro a b h0 he
    have ha := key a h0
    have hb := key b (by omega)
    exact hs.index_unique a b (by omega) (by omega)

theorem foldl_unregisterLocal_consistent (v : VarId) (l : List CompId) :
    ∀ s, Consistent s → Consistent (l.foldl (fun st c => unregisterLocal c v st) s) := by
  induction l with
  | nil => intro s hs; exact hs
  | cons c l ih => intro s hs; exact ih _ (unregisterLocal_consistent c v hs)

theorem unregisterParameter_consistent (var : Option VarId) (t : FunctorBase) {s : State}
    (hs : Consistent s) : Consistent (unregisterParameter var t s) := by
  cases var with
  | none => rw [unregisterParameter_none]; exact hs
  | some v =>
    rw [(unregisterParameter_eq_foldl v).1]
    exact foldl_unregisterLocal_consistent v _ s hs

theorem reachable_consistent {s : State} (h : Reachable s) : Consistent s := by
  induction h with
  | init name flag obs => exact initialState_consistent name flag obs
  | register this v n _ hreg ih => exact registerParameter_consistent ih hreg
  | unregister t var _ ih => exact unregisterParameter_consistent var t ih

/-! ## The effect of `unregisterParameter` on a whole tree -/

theorem foldl_unregisterLocal_index_ne (v : VarId) {w : VarId} (h : w ≠ v)
    (l : List CompId) : ∀ s : State,
    (l.foldl (fun st c => unregisterLocal c v st) s).index w = s.index w := by
  induction l with
  | nil => intro s; rfl
  | cons c l ih => intro s; simp only [List.foldl_cons, ih, unregisterLocal_index_ne _ _ h]

theorem foldl_unregisterLocal_entry_ne (v : VarId) {w : VarId} (h : w ≠ v)
    (l : List CompId) : ∀ s : State,
    (l.foldl (fun st c => unregisterLocal c v st) s).variableRegistry.entry w
      = s.variableRegistry.entry w := by
  induction l with
  | nil => intro s; rfl
  | cons c l ih => intro s; simp only [List.foldl_cons, ih, unregisterLocal_entry_ne _ _ h]

theorem foldl_unregisterLocal_mem_entry (v : VarId) (c : CompId)
    (l : List CompId) : ∀ s : State,
    c ∈ (l.foldl (fun st c => unregisterLocal c v st) s).variableRegistry.entry v
      ↔ c ∈ s.variableRegistry.entry v ∧ c ∉ l := by
  induction l with
  | nil => intro s; simp
  | cons d l ih =>
    intro s
    simp only [List.foldl_cons, ih, unregisterLocal_entry_self, Finset.mem_erase,
      List.mem_cons, not_or]
    tauto

theorem foldl_unregisterLocal_keys (v : VarId) {w : VarId}
    (l : List CompId) : ∀ s : State, w ∈ s.variableRegistry.keys →
    w ∈ (l.foldl (fun st c => unregisterLocal c v st) s).variableRegistry.keys := by
  induction l with
  | nil => intro s h; exact h
  | cons c l ih =>
    intro s h
    exact ih _ ((unregisterLocal_keys c v w s).mpr (Or.inr h))

theorem foldl_unregisterLocal_not_mem (v : VarId) (c : CompId)
    (l : List CompId) : ∀ s : State, v ∉ s.parameterList c →
    v ∉ (l.foldl (fun st c => unregisterLocal c v st) s).parameterList c := by
  induction l with
  | nil => intro s h; exact h
  | cons d l ih =>
    intro s h
    apply ih
    rw [unregisterLocal_parameterList]
    by_cases hc : c = d
    · subst hc
      simp only [Function.update_same]
      exact fun hm => h (List.mem_of_mem_erase hm)
    · simpa [Function.update_noteq hc] using h

theorem foldl_unregisterLocal_detached (v : VarId) (c : CompId)
    (l : List CompId) : ∀ s : State, (s.parameterList c).Nodup → c ∈ l →
    v ∉ (l.foldl (fun st c => unregisterLocal c v st) s).parameterList c := by
  induction l with
  | nil => intro s _ h; simp at h
  | cons d l ih =>
    intro s hnd hc
    by_cases hcd : c = d
    · subst hcd
      rw [List.foldl_cons]
      apply foldl_unregisterLocal_not_mem v c l
      rw [unregisterLocal_parameterList]
      simp [hnd.mem_erase_iff]
    · have hcl : c ∈ l := by simpa [hcd] using hc
      rw [List.foldl_cons]
      apply ih _ _ hcl
      rw [unregisterLocal_parameterList]
      simpa [Function.update_noteq hcd] using hnd

theorem foldl_unregisterLocal_index_of_empty (v : VarId) (l : List CompId) :
    ∀ s : State, (s.variableRegistry.entry v = ∅ → s.index v = -1) →
    (l.foldl (fun st c => unregisterLocal c v st) s).variableRegistry.entry v = ∅ →
    (l.foldl (fun st c => unregisterLocal c v st) s).index v = -1 := by
  induction l with
  | nil => intro s h; exact h
  | cons c l ih =>
    intro s _
    apply ih
    intro he
    rw [unregisterLocal_entry_self] at he
    exact unregisterLocal_index_of_empty c v s he

theorem unchanged_refl (s : State) : Unchanged s s :=
  ⟨rfl, rfl, rfl, rfl, rfl, fun _ => rfl⟩

theorem unchanged_trans {s s' s'' : State} (h : Unchanged s s') (h' : Unchanged s' s'') :
    Unchanged s s'' :=
  ⟨h'.name.trans h.name, h'.properlyInitialised.trans h.properlyInitialised,
   h'.parameterList.trans h.parameterList, h'.observables.trans h.observables,
   h'.index.trans h.index, fun w => (h'.entry w).trans (h.entry w)⟩

theorem unregisterLocal_unchanged (this : CompId) (v : VarId) (s : State)
    (hl : v ∉ s.parameterList this) (he : this ∉ s.variableRegistry.entry v)
    (hi : s.variableRegistry.entry v = ∅ → s.index v = -1) :
    Unchanged s (unregisterLocal this v s) := by
  have hpl : (unregisterLocal this v s).parameterList = s.parameterList := by
    rw [unregisterLocal_parameterList, List.erase_of_not_mem hl, Function.update_eq_self]
  have hentry : ∀ w, (unregisterLocal this v s).variableRegistry.entry w
      = s.variableRegistry.entry w := by
    intro w
    by_cases hw : w = v
    · subst hw
      rw [unregisterLocal_entry_self, Finset.erase_eq_of_not_mem he]
    · exact unregisterLocal_entry_ne _ _ hw
  have hindex : (unregisterLocal this v s).index = s.index := by
    funext w
    by_cases hw : w = v
    · subst hw
      by_cases hem : (s.variableRegistry.entry w).erase this = ∅
      · rw [unregisterLocal_index_of_empty this w s hem]
        rw [Finset.erase_eq_of_not_mem he] at hem
        exact (hi hem).symm
      · exact unregisterLocal_index_of_ne_empty this w s hem
    · exact unregisterLocal_index_ne _ _ hw
  refine ⟨unregisterLocal_name this v s, ?_, hpl, ?_, hindex, hentry⟩
  · simp only [unregisterLocal]; split <;> rfl
  · simp only [unregisterLocal]; split <;> rfl

theorem foldl_unregisterLocal_unchanged (v : VarId) (l : List CompId) :
    ∀ s : State, (∀ c ∈ l, v ∉ s.parameterList c) →
      (∀ c ∈ l, c ∉ s.variableRegistry.entry v) →
      (s.variableRegistry.entry v = ∅ → s.index v = -1) →
      Unchanged s (l.foldl (fun st c => unregisterLocal c v st) s) := by
  induction l with
  | nil => intro s _ _ _; exact unchanged_refl s
  | cons c l ih =>
    intro s hl he hi
    have h1 := unregisterLocal_unchanged c v s (hl c (List.mem_cons_self _ _))
      (he c (List.mem_cons_self _ _)) hi
    refine unchanged_trans h1 (ih _ ?_ ?_ ?_)
    · intro d hd
      rw [h1.parameterList]
      exact hl d (List.mem_cons_of_mem _ hd)
    · intro d hd
      rw [h1.entry]
      exact he d (List.mem_cons_of_mem _ hd)
    · rw [h1.entry, h1.index]
      exact hi

/-! ## Aggregation -/

theorem preorderParameters_eq_flatMap (s : State) :
    (∀ t : FunctorBase, preorderParameters s t = t.nodes.flatMap s.parameterList) ∧
    (∀ ts : List FunctorBase, preorderParametersComponents s ts
        = (nodesOfComponents ts).flatMap s.parameterList) := by
  apply functorBase_induction
  · intro c cs ih
    simp [preorderParameters, FunctorBase.nodes, ih]
  · simp [preorderParametersComponents, nodesOfComponents]
  · intro t ts iht ihts
    simp [preorderParametersComponents, nodesOfComponents, iht, ihts]

theorem removeLaterDuplicates_filter (p : VarId → Bool) (l : List VarId) :
    removeLaterDuplicates (l.filter p) = (removeLaterDuplicates l).filter p := by
  induction l with
  | nil => rfl
  | cons y l ih =>
    by_cases hp : p y = true
    · simp only [List.filter_cons_of_pos hp, removeLaterDuplicates, ih, List.filter_filter]
      congr 1
      apply List.filter_congr
      intro a _
      exact Bool.and_comm _ _
    · simp only [List.filter_cons_of_neg hp, removeLaterDuplicates, ih, List.filter_filter]
      apply List.filter_congr
      intro a _
      by_cases ha : a = y
      · subst ha; simp [hp]
      · simp [ha]

theorem mem_removeLaterDuplicates (l : List VarId) (v : VarId) :
    v ∈ removeLaterDuplicates l ↔ v ∈ l := by
  induction l with
  | nil => simp [removeLaterDuplicates]
  | cons x l ih =>
    simp only [removeLaterDuplicates, List.mem_cons, List.mem_filter, ih, decide_eq_true_eq]
    by_cases h : v = x <;> simp [h]

theorem removeLaterDuplicates_nodup (l : List VarId) : (removeLaterDuplicates l).Nodup := by
  induction l with
  | nil => simp [removeLaterDuplicates]
  | cons x l ih =>
    simp only [removeLaterDuplicates, List.nodup_cons]
    exact ⟨by simp [List.mem_filter], ih.filter _⟩

theorem pushNew_eq (l : List VarId) : ∀ ret : List VarId,
    pushNew ret l
      = ret ++ removeLaterDuplicates (l.filter (fun y => decide (y ∉ ret))) := by
  induction l with
  | nil => intro ret; simp [pushNew, removeLaterDuplicates]
  | cons x l ih =>
    intro ret
    have hstep : pushNew ret (x :: l) = pushNew (if x ∈ ret then ret else ret ++ [x]) l := rfl
    rw [hstep]
    by_cases hx : x ∈ ret
    · rw [if_pos hx, ih]
      simp [hx]
    · rw [if_neg hx, ih]
      have hf : List.filter (fun y => decide (y ∉ ret ++ [x])) l
          = List.filter (fun y => decide (y ≠ x)) (List.filter (fun y => decide (y ∉ ret)) l) := by
        rw [List.filter_filter]
        apply List.filter_congr
        intro a _
        simp [not_or, and_comm]
      rw [hf, removeLaterDuplicates_filter]
      simp [hx, removeLaterDuplicates]

theorem pushNew_nil (l : List VarId) : pushNew [] l = removeLaterDuplicates l := by
  rw [pushNew_eq]
  simp

theorem checkInitStatus_eq (s : State) :
    (∀ (t : FunctorBase) (unInited : List String), checkInitStatus s t unInited
        = unInited ++ (t.nodes.filter (fun c => !s.properlyInitialised c)).map s.name) ∧
    (∀ (ts : List FunctorBase) (unInited : List String),
        checkInitStatusComponents s ts unInited
        = unInited
          ++ ((nodesOfComponents ts).filter (fun c => !s.properlyInitialised c)).map s.name) := by
  apply functorBase_induction
  · intro c cs ih unInited
    by_cases h : s.properlyInitialised c = true
    · simp [checkInitStatus, FunctorBase.nodes, ih, h]
    · simp [checkInitStatus, FunctorBase.nodes, ih, h]
  · intro unInited
    simp [checkInitStatusComponents, nodesOfComponents]
  · intro t ts iht ihts unInited
    simp [checkInitStatusComponents, nodesOfComponents, iht, ihts]

theorem reachable_afterRegister {s : State} (this : CompId) (v : VarId)
    (h : Reachable s) : Reachable (afterRegister this v s) := by
  obtain ⟨n, s', hr⟩ := registerParameter_returns this v s
  have he : afterRegister this v s = s' := by simp [afterRegister, hr]
  rw [he]
  exact Reachable.register this v n h hr

theorem exampleTwo_reachable : Reachable exampleTwo :=
  reachable_afterRegister 0 6 (reachable_afterRegister 0 5 (Reachable.init _ _ _))

/-! ## The claims -/

/-- C1 (index uniqueness): in every state reachable from the initial state by
calls of `registerParameter` with a non-null Variable and calls of
`unregisterParameter` on trees, two distinct Variables never hold the same
non-negative index. -/
theorem index_uniqueness (s : State) (h : Reachable s) (v w : VarId) (hne : v ≠ w)
    (hv : 0 ≤ s.index v) : s.index v ≠ s.index w :=
  fun he => hne ((reachable_consistent h).index_unique v w hv he)

/-- Variables 5 and 6, both registered by component 0, hold different
indices. -/
theorem index_uniqueness_witness :
    Reachable exampleTwo ∧ (5 : VarId) ≠ 6 ∧ 0 ≤ exampleTwo.index 5 ∧
      exampleTwo.index 5 ≠ exampleTwo.index 6 :=
  ⟨exampleTwo_reachable, by decide, by decide,
   index_uniqueness exampleTwo exampleTwo_reachable 5 6 (by decide) (by decide)⟩

/-- C2 (smallest free index): for a non-null Variable `v` whose index is
unassigned and which is not in the parameter list of the component,
`registerParameter` returns, and the number `n` it returns is the index it
assigns to `v`, is held by no other Variable keyed in the registry, and is the
least such number: every smaller one is held by another keyed Variable. -/
theorem registerParameter_smallest_free (this : CompId) (v : VarId) (s : State)
    (hi : s.index v < 0) (hm : v ∉ s.parameterList this) :
    ∃ n s', registerParameter this (some v) s = some (n, s') ∧
      s'.index v = (n : Int) ∧
      (∀ w ∈ s.variableRegistry.keys, w ≠ v → s.index w ≠ (n : Int)) ∧
      (∀ m : Nat, m < n → ∃ w ∈ s.variableRegistry.keys, w ≠ v ∧ s.index w = (m : Int)) := by
  obtain ⟨n, hscan, hr⟩ := registerParameter_of_unassigned hm hi
  obtain ⟨hcan, -, hlt⟩ := scanUnusedIndex_some _ _ _ _ hscan
  refine ⟨n, _, hr, by simp, ?_, ?_⟩
  · intro w hw _
    rw [canUse_iff] at hcan
    exact hcan w ((mem_keys_insertComponent _ _ _ _).mpr (Or.inr hw))
  · intro m hmn
    have hm' := hlt m (Nat.zero_le _) hmn
    have hex : ¬ (∀ p ∈ (addParameter this v s).variableRegistry.keys,
        (addParameter this v s).index p ≠ (m : Int)) := by
      rw [← canUse_iff]; simp [hm']
    push_neg at hex
    obtain ⟨p, hp, e⟩ := hex
    have e' : s.index p = (m : Int) := e
    have hpv : p ≠ v := by
      rintro rfl
      omega
    rcases (mem_keys_insertComponent _ _ _ _).mp hp with h1 | h1
    · exact absurd h1 hpv
    · exact ⟨p, h1, hpv, e'⟩

/-- Once index 0 has been released by Variable 5, Variable 7 is registered by
component 2 under the conditions of C2. -/
theorem registerParameter_smallest_free_witness :
    exampleFreed.index 7 < 0 ∧ 7 ∉ exampleFreed.parameterList 2 ∧
    ∃ n s', registerParameter 2 (some 7) exampleFreed = some (n, s') ∧
      s'.index 7 = (n : Int) ∧
      (∀ w ∈ exampleFreed.variableRegistry.keys, w ≠ 7 → exampleFreed.index w ≠ (n : Int)) ∧
      (∀ m : Nat, m < n → ∃ w ∈ exampleFreed.variableRegistry.keys,
        w ≠ 7 ∧ exampleFreed.index w = (m : Int)) :=
  ⟨by decide, by decide,
   registerParameter_smallest_free 2 7 exampleFreed (by decide) (by decide)⟩

/-- C3 (registry/index invariant): in every reachable state the index of a
Variable is assigned (at least 0) if and only if the set of components in its
registry entry is not empty. -/
theorem index_assigned_iff_entry_nonempty (s : State) (h : Reachable s) (v : VarId) :
    0 ≤ s.index v ↔ (s.variableRegistry.entry v).Nonempty := by
  rw [Finset.nonempty_iff_ne_empty]
  constructor
  · intro h0 he
    have := (reachable_consistent h).index_of_empty v he
    omega
  · exact (reachable_consistent h).index_of_ne_empty v

/-- The equivalence at the registered Variable 6 and at the released
Variable 5. -/
theorem index_assigned_iff_entry_nonempty_witness :
    Reachable exampleFreed ∧
      (0 ≤ exampleFreed.index 6 ↔ (exampleFreed.variableRegistry.entry 6).Nonempty) ∧
      (0 ≤ exampleFreed.index 5 ↔ (exampleFreed.variableRegistry.entry 5).Nonempty) :=
  ⟨Reachable.unregister _ _ exampleTwo_reachable,
   index_assigned_iff_entry_nonempty exampleFreed
     (Reachable.unregister _ _ exampleTwo_reachable) 6,
   index_assigned_iff_entry_nonempty exampleFreed
     (Reachable.unregister _ _ exampleTwo_reachable) 5⟩

/-- C4 (idempotent registration): a call of `registerParameter` with a
non-null Variable returns, and the same call repeated at once returns the same
index and the same state: parameter lists, registry and indices are those the
first call left. -/
theorem registerParameter_idempotent (this : CompId) (v : VarId) (s : State) :
    ∃ n s', registerParameter this (some v) s = some (n, s') ∧
      registerParameter this (some v) s' = some (n, s') := by
  by_cases hm : v ∈ s.parameterList this
  · exact ⟨_, _, registerParameter_of_mem hm, registerParameter_of_mem hm⟩
  · by_cases hi : s.index v < 0
    · obtain ⟨n, -, hr⟩ := registerParameter_of_unassigned hm hi
      refine ⟨_, _, hr, ?_⟩
      rw [registerParameter_of_mem (by simp [addParameter])]
      simp [toUnsigned_natCast]
    · refine ⟨_, _, registerParameter_of_assigned hm (by omega), ?_⟩
      rw [registerParameter_of_mem (by simp [addParameter])]
      rfl

/-- C5 (index reuse): in a reachable state where Variable `V` holds index `k`,
component `c` is the only member of the registry entry of `V`, and every index
below `k` is held by another registered Variable, the call
`unregisterParameter(c, V)` followed by `registerParameter(c2, W)` for a
Variable `W` whose index is then unassigned returns `k` and sets the index of
`W` to `k`. -/
theorem index_reuse (s : State) (h : Reachable s) (V W : VarId) (c c2 : CompId)
    (components : List FunctorBase) (k : Nat)
    (hk : s.index V = (k : Int)) (hsole : s.variableRegistry.entry V = {c})
    (hdense : ∀ j : Nat, j < k → ∃ U, U ≠ V ∧ (s.variableRegistry.entry U).Nonempty ∧
      s.index U = (j : Int))
    (hW : (unregisterParameter (some V) (.mk c components) s).index W < 0) :
    ∃ s', registerParameter c2 (some W)
        (unregisterParameter (some V) (.mk c components) s) = some (k, s') ∧
      s'.index W = (k : Int) := by
  have hcons1 : Consistent (unregisterParameter (some V) (.mk c components) s) :=
    unregisterParameter_consistent _ _ (reachable_consistent h)
  have hfold := (unregisterParameter_eq_foldl V).1 (.mk c components) s
  generalize unregisterParameter (some V) (.mk c components) s = s1 at hcons1 hfold hW ⊢
  have hother : ∀ w, w ≠ V → s1.index w = s.index w ∧
      s1.variableRegistry.entry w = s.variableRegistry.entry w := by
    intro w hw
    rw [hfold]
    exact ⟨foldl_unregisterLocal_index_ne V hw _ s, foldl_unregisterLocal_entry_ne V hw _ s⟩
  have hV1 : s1.index V = -1 := by
    apply hcons1.index_of_empty
    apply Finset.eq_empty_of_forall_not_mem
    intro d hd
    rw [hfold, foldl_unregisterLocal_mem_entry, hsole] at hd
    obtain ⟨hd1, hd2⟩ := hd
    rw [Finset.mem_singleton] at hd1
    subst hd1
    exact hd2 (by simp [FunctorBase.nodes])
  have hWl : W ∉ s1.parameterList c2 := by
    intro hm
    have hmem := (hcons1.mem_entry c2 W).mpr hm
    have := hcons1.index_of_ne_empty W (Finset.ne_empty_of_mem hmem)
    omega
  obtain ⟨n, hscan, hr⟩ := registerParameter_of_unassigned hWl hW
  obtain ⟨hcan, -, hlt⟩ := scanUnusedIndex_some _ _ _ _ hscan
  have hnk : n = k := by
    apply le_antisymm
    · by_contra hgt
      have hk' := hlt k (Nat.zero_le _) (by omega)
      have hex : ¬ (∀ p ∈ (addParameter c2 W s1).variableRegistry.keys,
          (addParameter c2 W s1).index p ≠ (k : Int)) := by
        rw [← canUse_iff]; simp [hk']
      push_neg at hex
      obtain ⟨p, -, e⟩ := hex
      have e' : s1.index p = (k : Int) := e
      have hpV : p ≠ V := by
        rintro rfl
        omega
      have hp := (hother p hpV).1
      exact hpV ((reachable_consistent h).index_unique p V (by omega) (by omega))
    · by_contra hlt'
      obtain ⟨U, hUV, hUne, hUi⟩ := hdense n (by omega)
      obtain ⟨hU1, hU2⟩ := hother U hUV
      have hkey : U ∈ (addParameter c2 W s1).variableRegistry.keys := by
        apply (mem_keys_insertComponent _ _ _ _).mpr
        right
        apply mem_keys_of_entry_ne_empty
        rw [hU2]
        exact Finset.nonempty_iff_ne_empty.mp hUne
      rw [canUse_iff] at hcan
      apply hcan U hkey
      show s1.index U = (n : Int)
      omega
  subst hnk
  exact ⟨_, hr, by simp⟩

/-- Variable 6 holds index 1 for component 0 alone while Variable 5 holds
index 0; after it is unregistered, Variable 9 receives index 1. -/
theorem index_reuse_witness :
    Reachable exampleTwo ∧ exampleTwo.index 6 = ((1 : Nat) : Int) ∧
    exampleTwo.variableRegistry.entry 6 = {0} ∧
    (∀ j : Nat, j < 1 → ∃ U, U ≠ 6 ∧ (exampleTwo.variableRegistry.entry U).Nonempty ∧
      exampleTwo.index U = (j : Int)) ∧
    (unregisterParameter (some 6) (.mk 0 []) exampleTwo).index 9 < 0 ∧
    ∃ s', registerParameter 3 (some 9)
        (unregisterParameter (some 6) (.mk 0 []) exampleTwo) = some (1, s') ∧
      s'.index 9 = ((1 : Nat) : Int) :=
  ⟨exampleTwo_reachable, by decide, by decide,
   fun j hj => ⟨5, by decide, by decide, by
     have hj0 : j = 0 := by omega
     subst hj0
     decide⟩,
   by decide,
   index_reuse exampleTwo exampleTwo_reachable 6 9 0 3 [] 1 (by decide) (by decide)
     (fun j hj => ⟨5, by decide, by decide, by
       have hj0 : j = 0 := by omega
       subst hj0
       decide⟩)
     (by decide)⟩

/-- C6 (subtree detachment): after `unregisterParameter(root, V)` with a
non-null `V` on a tree whose nodes have duplicate-free parameter lists, no
node of the tree has `V` in its parameter list; no node of the tree is a
member of the registry entry of `V`; and when every component in the registry
entry of `V` was a node of the tree, the index of `V` is unassigned. -/
theorem subtree_detachment (t : FunctorBase) (V : VarId) (s : State)
    (hnodup : ∀ c ∈ t.nodes, (s.parameterList c).Nodup) :
    (∀ c ∈ t.nodes, V ∉ (unregisterParameter (some V) t s).parameterList c) ∧
    (∀ c ∈ t.nodes, c ∉ (unregisterParameter (some V) t s).variableRegistry.entry V) ∧
    ((∀ c ∈ s.variableRegistry.entry V, c ∈ t.nodes) →
      (unregisterParameter (some V) t s).index V = -1) := by
  rw [(unregisterParameter_eq_foldl V).1 t s]
  refine ⟨?_, ?_, ?_⟩
  · intro c hc
    exact foldl_unregisterLocal_detached V c _ s (hnodup c hc) hc
  · intro c hc hmem
    exact ((foldl_unregisterLocal_mem_entry V c _ s).mp hmem).2 hc
  · intro hin
    have hempty : (t.nodes.foldl (fun st c => unregisterLocal c V st) s).variableRegistry.entry V
        = ∅ := by
      apply Finset.eq_empty_of_forall_not_mem
      intro d hd
      obtain ⟨hd1, hd2⟩ := (foldl_unregisterLocal_mem_entry V d _ s).mp hd
      exact hd2 (hin d hd1)
    cases hn : t.nodes with
    | nil => exact absurd hn (nodes_ne_nil t)
    | cons c l =>
      rw [hn] at hempty
      rw [List.foldl_cons] at hempty ⊢
      apply foldl_unregisterLocal_index_of_empty V l _ _ hempty
      intro he
      rw [unregisterLocal_entry_self] at he
      exact unregisterLocal_index_of_empty c V s he

/-- Variable 5, registered by the parent 0 and by its child 1, is detached
from both by one call on the parent. -/
theorem subtree_detachment_witness :
    (∀ c ∈ exampleTree.nodes, (exampleShared.parameterList c).Nodup) ∧
    (∀ c ∈ exampleShared.variableRegistry.entry 5, c ∈ exampleTree.nodes) ∧
    (∀ c ∈ exampleTree.nodes,
      5 ∉ (unregisterParameter (some 5) exampleTree exampleShared).parameterList c) ∧
    (∀ c ∈ exampleTree.nodes,
      c ∉ (unregisterParameter (some 5) exampleTree exampleShared).variableRegistry.entry 5) ∧
    (unregisterParameter (some 5) exampleTree exampleShared).index 5 = -1 :=
  ⟨by decide, by decide,
   (subtree_detachment exampleTree 5 exampleShared (by decide)).1,
   (subtree_detachment exampleTree 5 exampleShared (by decide)).2.1,
   (subtree_detachment exampleTree 5 exampleShared (by decide)).2.2 (by decide)⟩

theorem self_mem_nodes (t : FunctorBase) : t.self ∈ t.nodes := by
  cases t; simp [FunctorBase.self, FunctorBase.nodes]

theorem nodes_subset_nodesOfComponents {a : FunctorBase} :
    ∀ {ts : List FunctorBase}, a ∈ ts → ∀ c ∈ a.nodes, c ∈ nodesOfComponents ts := by
  intro ts
  induction ts with
  | nil => intro h; simp at h
  | cons t ts ih =>
    intro h c hc
    simp only [nodesOfComponents, List.mem_append]
    rcases List.mem_cons.mp h with rfl | h'
    · exact Or.inl hc
    · exact Or.inr (ih h' c hc)

theorem child_mem_nodes {t a : FunctorBase} (h : a ∈ t.components) :
    a.self ∈ t.nodes := by
  cases t with
  | mk c cs =>
    simp only [FunctorBase.nodes, List.mem_cons]
    exact Or.inr (nodes_subset_nodesOfComponents h _ (self_mem_nodes a))

/-- C7, the claim as stated fails.  First, in a reachable state: Variable 5 is
absent from the parameter list of the parent 0 and listed by its child 1, and
`unregisterParameter` on the parent empties the list of the child, empties the
registry entry and releases the index.  Second, in a state with a stray index:
Variable 5 is listed nowhere and holds index 3, and the call resets it. -/
theorem unregisterParameter_absent_counterexample :
    (5 ∉ exampleChildOnly.parameterList 0 ∧
      exampleChildOnly.parameterList 1 = [5] ∧
      (unregisterParameter (some 5) exampleTree exampleChildOnly).parameterList 1 = [] ∧
      exampleChildOnly.variableRegistry.entry 5 = {1} ∧
      (unregisterParameter (some 5) exampleTree exampleChildOnly).variableRegistry.entry 5 = ∅ ∧
      exampleChildOnly.index 5 = 0 ∧
      (unregisterParameter (some 5) exampleTree exampleChildOnly).index 5 = -1) ∧
    (5 ∉ exampleStray.parameterList 0 ∧
      exampleStray.index 5 = 3 ∧
      (unregisterParameter (some 5) (.mk 0 []) exampleStray).index 5 = -1) := by
  decide

/-- C7, amended: `unregisterParameter(component, var)` leaves the state
unchanged (name, flag, parameter list and observables of every component,
every registry entry as a set of components, every index) when `var` is null,
and also when the state is reachable and `var` is in the parameter list of no
node of the tree below the component, the component itself included. -/
theorem unregisterParameter_noop (t : FunctorBase) (var : Option VarId) (s : State)
    (h : var = none ∨
      (Reachable s ∧ ∀ v, var = some v → ∀ c ∈ t.nodes, v ∉ s.parameterList c)) :
    Unchanged s (unregisterParameter var t s) := by
  cases var with
  | none => rw [unregisterParameter_none]; exact unchanged_refl s
  | some v =>
    rcases h with h | ⟨hr, habs⟩
    · cases h
    · rw [(unregisterParameter_eq_foldl v).1 t s]
      have hc := (reachable_consistent hr)
      apply foldl_unregisterLocal_unchanged v _ s (habs v rfl)
      · intro c hcn hmem
        exact habs v rfl c hcn ((hc.mem_entry c v).mp hmem)
      · exact hc.index_of_empty v

/-- Variable 5 is registered by component 0 only; unregistering it from the
tree of components 1 and 2 changes nothing. -/
theorem unregisterParameter_noop_witness :
    ((some 5 : Option VarId) = none ∨
      (Reachable exampleTwo ∧ ∀ v, some 5 = some v →
        ∀ c ∈ (FunctorBase.mk 1 [.mk 2 []]).nodes, v ∉ exampleTwo.parameterList c)) ∧
    Unchanged exampleTwo (unregisterParameter (some 5) (.mk 1 [.mk 2 []]) exampleTwo) :=
  ⟨Or.inr ⟨exampleTwo_reachable, by decide⟩,
   unregisterParameter_noop (.mk 1 [.mk 2 []]) (some 5) exampleTwo
     (Or.inr ⟨exampleTwo_reachable, by decide⟩)⟩

/-- C8 (reference definition of `getParameters`): called with an empty
accumulator, `getParameters` returns the pre-order concatenation of the own
parameter lists of the nodes with every later duplicate removed; the result
has no duplicates; it contains a Variable exactly when some node of the tree
lists it; and a Variable listed by two children of the root appears exactly
once in the result for the root. -/
theorem getParameters_reference (s : State) (t : FunctorBase) :
    getParameters s t [] = removeLaterDuplicates (preorderParameters s t) ∧
    (getParameters s t []).Nodup ∧
    (∀ v, v ∈ getParameters s t [] ↔ ∃ c ∈ t.nodes, v ∈ s.parameterList c) ∧
    (∀ (a b : FunctorBase) (V : VarId), a ∈ t.components → b ∈ t.components →
      V ∈ s.parameterList a.self → V ∈ s.parameterList b.self →
      (getParameters s t []).count V = 1) := by
  have heq : getParameters s t [] = removeLaterDuplicates (preorderParameters s t) := by
    rw [(getParameters_eq_pushNew s).1, (preorderParameters_eq_flatMap s).1, pushNew_nil]
  have hnd : (getParameters s t []).Nodup := by
    rw [heq]; exact removeLaterDuplicates_nodup _
  have hmem : ∀ v, v ∈ getParameters s t [] ↔ ∃ c ∈ t.nodes, v ∈ s.parameterList c := by
    intro v
    rw [heq, mem_removeLaterDuplicates, (preorderParameters_eq_flatMap s).1,
      List.mem_flatMap]
  refine ⟨heq, hnd, hmem, ?_⟩
  intro a b V ha _ hVa _
  exact List.count_eq_one_of_mem hnd ((hmem V).mpr ⟨a.self, child_mem_nodes ha, hVa⟩)

/-- The children 0 and 1 of component 2 both list Variable 5, which appears
once in the parameters of component 2. -/
theorem getParameters_reference_witness :
    getParameters exampleShared exampleTree [] = [5, 6] ∧
    (getParameters exampleShared (.mk 2 [.mk 0 [], .mk 1 []]) []).count 5 = 1 :=
  ⟨by decide,
   (getParameters_reference exampleShared (.mk 2 [.mk 0 [], .mk 1 []])).2.2.2
     (.mk 0 []) (.mk 1 []) 5 (by simp [FunctorBase.components])
     (by simp [FunctorBase.components]) (by decide) (by decide)⟩

/-- C9 (`getObservables` has the contract of `getParameters`): for every tree
and every accumulator, `getObservables` returns what `getParameters` returns
once the parameter list of every component is replaced by its observable
list. -/
theorem getObservables_eq_getParameters (s : State) (t : FunctorBase) (ret : List VarId) :
    getObservables s t ret
      = getParameters { s with parameterList := s.observables } t ret := by
  rw [(getObservables_eq_pushNew s).1, (getParameters_eq_pushNew _).1]

/-- C10 (`checkInitStatus` collects every uninitialised node): the report
returned is the report passed in followed by the names of the nodes whose
`properlyInitialised` flag is false, one entry per such node, in depth-first
pre-order.  The function reads the state and returns the report only. -/
theorem checkInitStatus_collects (s : State) (t : FunctorBase) (report : List String) :
    checkInitStatus s t report
      = report ++ (t.nodes.filter (fun c => !s.properlyInitialised c)).map s.name :=
  (checkInitStatus_eq s).1 t report


/-! ## Density and frame of a registration -/

theorem scanUnusedIndex_mono (s : State) :
    ∀ (fuel k u n : Nat), scanUnusedIndex s fuel u = some n →
      scanUnusedIndex s (fuel + k) u = some n := by
  intro fuel
  induction fuel with
  | zero => intro k u n h; simp [scanUnusedIndex] at h
  | succ f ih =>
    intro k u n h
    have hk : f + 1 + k = (f + k) + 1 := by omega
    rw [hk]
    unfold scanUnusedIndex at h ⊢
    by_cases hc : canUse s u = true
    · rw [if_pos hc] at h ⊢; exact h
    · rw [if_neg hc] at h ⊢; exact ih k (u + 1) n h

theorem held_below_scan {this : CompId} {v : VarId} {s : State} (hi : s.index v < 0)
    {fuel n : Nat} (hscan : scanUnusedIndex (addParameter this v s) fuel 0 = some n) :
    ∀ m : Nat, m < n → ∃ w ∈ s.variableRegistry.keys, w ≠ v ∧ s.index w = (m : Int) := by
  obtain ⟨-, -, hlt⟩ := scanUnusedIndex_some _ _ _ _ hscan
  intro m hmn
  have hm' := hlt m (Nat.zero_le _) hmn
  have hex : ¬ (∀ p ∈ (addParameter this v s).variableRegistry.keys,
      (addParameter this v s).index p ≠ (m : Int)) := by
    rw [← canUse_iff]; simp [hm']
  push_neg at hex
  obtain ⟨p, hp, e⟩ := hex
  have e' : s.index p = (m : Int) := e
  have hpv : p ≠ v := by
    rintro rfl
    omega
  rcases (mem_keys_insertComponent _ _ _ _).mp hp with h1 | h1
  · exact absurd h1 hpv
  · exact ⟨p, h1, hpv, e'⟩

theorem card_le_assigned_keys (s : State) (n : Nat)
    (h : ∀ m : Nat, m < n → ∃ w ∈ s.variableRegistry.keys, s.index w = (m : Int)) :
    n ≤ (s.variableRegistry.keys.filter (fun p => decide (0 ≤ s.index p))).length := by
  have hsub : (Finset.range n).image (fun m : Nat => (m : Int))
      ⊆ (s.variableRegistry.keys.filter (fun p => decide (0 ≤ s.index p))).toFinset.image
          s.index := by
    intro x hx
    obtain ⟨m, hm, rfl⟩ := Finset.mem_image.mp hx
    obtain ⟨w, hw, e⟩ := h m (Finset.mem_range.mp hm)
    refine Finset.mem_image.mpr ⟨w, ?_, e⟩
    rw [List.mem_toFinset, List.mem_filter]
    exact ⟨hw, by simp [e]⟩
  have h1 := Finset.card_le_card hsub
  rw [Finset.card_image_of_injective _ Nat.cast_injective, Finset.card_range] at h1
  exact le_trans h1 (le_trans Finset.card_image_le (List.toFinset_card_le _))

/-- C19 (the index scan terminates and stays dense): when `registerParameter`
reaches its `while (true)` search (the Variable is new to the component and
its index is unassigned), the search ends: every run of at least one
iteration more than the registry has keys stops at the same number `n`; the
call returns `n` and assigns it; and `n` is at most the number of Variables
keyed in the registry that hold an assigned index. -/
theorem index_scan_terminates_dense (this : CompId) (v : VarId) (s : State)
    (hi : s.index v < 0) (hm : v ∉ s.parameterList this) :
    ∃ n : Nat,
      (∀ fuel, (addParameter this v s).variableRegistry.keys.length + 1 ≤ fuel →
        scanUnusedIndex (addParameter this v s) fuel 0 = some n) ∧
      (∃ s', registerParameter this (some v) s = some (n, s') ∧ s'.index v = (n : Int)) ∧
      n ≤ (s.variableRegistry.keys.filter (fun p => decide (0 ≤ s.index p))).length := by
  obtain ⟨n, hscan, hr⟩ := registerParameter_of_unassigned hm hi
  refine ⟨n, ?_, ⟨_, hr, by simp⟩, ?_⟩
  · intro fuel hf
    obtain ⟨k, rfl⟩ := Nat.exists_eq_add_of_le hf
    exact scanUnusedIndex_mono _ _ k 0 n hscan
  · apply card_le_assigned_keys
    intro m hmn
    obtain ⟨w, hw, -, e⟩ := held_below_scan hi hscan m hmn
    exact ⟨w, hw, e⟩

/-- Variable 7 is registered while Variable 6 alone holds an index: the scan
stops at 0, which is at most 1. -/
theorem index_scan_terminates_dense_witness :
    exampleFreed.index 7 < 0 ∧ 7 ∉ exampleFreed.parameterList 2 ∧
    ∃ n : Nat,
      (∀ fuel, (addParameter 2 7 exampleFreed).variableRegistry.keys.length + 1 ≤ fuel →
        scanUnusedIndex (addParameter 2 7 exampleFreed) fuel 0 = some n) ∧
      (∃ s', registerParameter 2 (some 7) exampleFreed = some (n, s') ∧
        s'.index 7 = (n : Int)) ∧
      n ≤ (exampleFreed.variableRegistry.keys.filter
            (fun p => decide (0 ≤ exampleFreed.index p))).length :=
  ⟨by decide, by decide,
   index_scan_terminates_dense 2 7 exampleFreed (by decide) (by decide)⟩

/-- C20 (`registerParameter` never disturbs existing indices): a call with a
non-null Variable `v` returns; it leaves the index of every other Variable
and the parameter list of every other component unchanged; when the index of
`v` was assigned it leaves it unchanged and returns it; and every component
that registers `v` afterwards is returned the same index. -/
theorem registerParameter_frame (this : CompId) (v : VarId) (s : State) :
    ∃ n s', registerParameter this (some v) s = some (n, s') ∧
      (∀ w, w ≠ v → s'.index w = s.index w) ∧
      (∀ c, c ≠ this → s'.parameterList c = s.parameterList c) ∧
      (0 ≤ s.index v → s'.index v = s.index v ∧ (n : Int) = s.index v) ∧
      (0 ≤ s'.index v → ∀ c2, ∃ s'', registerParameter c2 (some v) s' = some (n, s'') ∧
        s''.index v = s'.index v) := by
  have hsecond : ∀ (s1 : State) (n : Nat), (n : Int) = s1.index v →
      ∀ c2, ∃ s'', registerParameter c2 (some v) s1 = some (n, s'') ∧
        s''.index v = s1.index v := by
    intro s1 n hn c2
    have hu : toUnsigned (s1.index v) = n := by rw [← hn, toUnsigned_natCast]
    by_cases hm2 : v ∈ s1.parameterList c2
    · exact ⟨s1, by rw [registerParameter_of_mem hm2, hu], rfl⟩
    · exact ⟨addParameter c2 v s1,
        by rw [registerParameter_of_assigned hm2 (by omega), hu], rfl⟩
  by_cases hm : v ∈ s.parameterList this
  · refine ⟨_, _, registerParameter_of_mem hm, fun _ _ => rfl, fun _ _ => rfl, ?_, ?_⟩
    · intro h0
      refine ⟨rfl, ?_⟩
      have : ¬ (s.index v < 0) := by omega
      simp [toUnsigned, this, Int.toNat_of_nonneg h0]
    · intro h0
      apply hsecond
      have : ¬ (s.index v < 0) := by omega
      simp [toUnsigned, this, Int.toNat_of_nonneg h0]
  · by_cases hi : s.index v < 0
    · obtain ⟨n, -, hr⟩ := registerParameter_of_unassigned hm hi
      refine ⟨_, _, hr, ?_, ?_, ?_, ?_⟩
      · intro w hw
        simp [Function.update_noteq hw]
      · intro c hc
        simp [addParameter, Function.update_noteq hc]
      · intro h0
        omega
      · intro _
        apply hsecond
        simp
    · have h0 : 0 ≤ s.index v := by omega
      have hn : ((toUnsigned (s.index v) : Nat) : Int) = s.index v := by
        simp [toUnsigned, hi, Int.toNat_of_nonneg h0]
      refine ⟨_, _, registerParameter_of_assigned hm h0, fun _ _ => rfl, ?_, ?_, ?_⟩
      · intro c hc
        simp [addParameter, Function.update_noteq hc]
      · intro _
        exact ⟨rfl, hn⟩
      · intro _
        apply hsecond
        exact hn

/-- Component 1 registers Variable 5, which component 0 registered under
index 0: the index stays 0, and component 3 is returned 0 as well. -/
theorem registerParameter_frame_witness :
    0 ≤ exampleTwo.index 5 ∧
    ∃ n s', registerParameter 1 (some 5) exampleTwo = some (n, s') ∧
      (∀ w, w ≠ 5 → s'.index w = exampleTwo.index w) ∧
      (∀ c, c ≠ 1 → s'.parameterList c = exampleTwo.parameterList c) ∧
      (0 ≤ exampleTwo.index 5 →
        s'.index 5 = exampleTwo.index 5 ∧ (n : Int) = exampleTwo.index 5) ∧
      (0 ≤ s'.index 5 → ∀ c2, ∃ s'', registerParameter c2 (some 5) s' = some (n, s'') ∧
        s''.index 5 = s'.index 5) :=
  ⟨by decide, registerParameter_frame 1 5 exampleTwo⟩



/-! ## The constant block allocator: the guard and the wrap-around -/

theorem toUInt32_natCast (n : Nat) (h : n < 2 ^ 32) : toUInt32 (n : Int) = n := by
  unfold toUInt32
  have : ((n : Int) % 2 ^ 32) = (n : Int) := Int.emod_eq_of_lt (by omega) (by omega)
  rw [this]
  simp

theorem toInt32_of_lt (n : Nat) (h : n < 2 ^ 31) : toInt32 n = (n : Int) := by
  unfold toInt32
  have h1 : n % 2 ^ 32 = n := Nat.mod_eq_of_lt (by omega)
  rw [h1, if_pos h]

/-- Without wrap-around the allocator does what its contract says: when the
counter is not negative and counter plus amount stays below a capacity of at
most `2^31`, the call returns the counter and advances it by the amount. -/
theorem registerConstants_of_fits (maxParams : Nat) (this : CompId) (amount : Nat)
    (k : Constants) (h0 : 0 ≤ k.totalConstants)
    (hfit : k.totalConstants + (amount : Int) < (maxParams : Int))
    (hcap : maxParams ≤ 2 ^ 31) :
    registerConstants maxParams this amount k
      = some (k.totalConstants.toNat,
          { totalConstants := k.totalConstants + (amount : Int),
            cIndex := Function.update k.cIndex this k.totalConstants.toNat }) := by
  obtain ⟨n, hn⟩ := Int.eq_ofNat_of_zero_le h0
  have hlt : n + amount < maxParams := by
    rw [hn] at hfit
    exact_mod_cast hfit
  have hu : toUInt32 (n : Int) = n := toUInt32_natCast n (by omega)
  have hmod : (n + amount) % 2 ^ 32 = n + amount := Nat.mod_eq_of_lt (by omega)
  have hi : toInt32 (n + amount) = ((n + amount : Nat) : Int) :=
    toInt32_of_lt _ (by omega)
  unfold registerConstants
  simp only [hn, hu, hmod, if_pos hlt, hi, Function.update_same]
  simp

/-- The call `registerConstants(4294967295)` at counter 1: the 32-bit sum is 0,
the assertion holds for every capacity of at least 1, offset 1 is returned and
the counter becomes 0. -/
theorem registerConstants_wrap (maxParams : Nat) (h : 0 < maxParams) (this : CompId) :
    registerConstants maxParams this 4294967295 initialConstants
      = some (1, { totalConstants := 0,
                   cIndex := Function.update initialConstants.cIndex this 1 }) := by
  have h1 : toUInt32 1 = 1 := by decide
  have h2 : toInt32 0 = 0 := by decide
  simp [registerConstants, initialConstants, h1, h2, h]

theorem registerConstants_at_zero (maxParams : Nat) (this : CompId) (amount : Nat)
    (cIndex : CompId → Nat) (h : amount < maxParams) (ha : amount < 2 ^ 31) :
    registerConstants maxParams this amount { totalConstants := 0, cIndex := cIndex }
      = some (0, { totalConstants := (amount : Int),
                   cIndex := Function.update cIndex this 0 }) := by
  have h1 : toUInt32 0 = 0 := by decide
  have hmod : amount % 2 ^ 32 = amount := Nat.mod_eq_of_lt (by omega)
  unfold registerConstants
  simp only [h1, Nat.zero_add, hmod, if_pos h, toInt32_of_lt amount ha, Function.update_same]

/-- The spec's example: from counter 1, `registerConstants(2)` then
`registerConstants(3)` return 1 and 3 and leave the counter at 6, for every
capacity from 7 to `2^31`. -/
theorem registerConstants_example (maxParams : Nat) (h : 6 < maxParams)
    (hcap : maxParams ≤ 2 ^ 31) (a b : CompId) :
    ∃ k1 k2, registerConstants maxParams a 2 initialConstants = some (1, k1) ∧
      registerConstants maxParams b 3 k1 = some (3, k2) ∧ k2.totalConstants = 6 := by
  have h1 := registerConstants_of_fits maxParams a 2 initialConstants (by decide)
    (by simp [initialConstants]; omega) hcap
  have h2 := registerConstants_of_fits maxParams b 3
    { totalConstants := initialConstants.totalConstants + ((2 : Nat) : Int),
      cIndex := Function.update initialConstants.cIndex a
        initialConstants.totalConstants.toNat }
    (by simp [initialConstants]) (by simp [initialConstants]; omega) hcap
  exact ⟨_, _, h1, h2, by simp [initialConstants]⟩

/-- C12, evaluated at the failing input: at counter 1 and for every capacity
above 2, `registerConstants(4294967295)` succeeds with offset 1 and leaves the
counter at 0 instead of advancing it by the amount; the next call
`registerConstants(2)` succeeds with offset 0, and the two reserved blocks
overlap. -/
theorem constant_blocks_overlap_after_wrap (maxParams : Nat) (h : 2 < maxParams)
    (a b : CompId) :
    ∃ k1 k2, registerConstants maxParams a 4294967295 initialConstants = some (1, k1) ∧
      k1.totalConstants = 0 ∧
      k1.totalConstants ≠ initialConstants.totalConstants + 4294967295 ∧
      registerConstants maxParams b 2 k1 = some (0, k2) ∧
      blocksOverlap 1 4294967295 0 2 := by
  refine ⟨{ totalConstants := 0, cIndex := Function.update initialConstants.cIndex a 1 }, _,
    registerConstants_wrap maxParams (by omega) a, rfl, ?_,
    registerConstants_at_zero maxParams b 2 _ h (by norm_num), ?_⟩
  · simp [initialConstants]
  · exact ⟨1, by norm_num, by norm_num, by norm_num, by norm_num⟩

/-- The failing input of C12 at a capacity of 500. -/
theorem constant_blocks_overlap_after_wrap_witness :
    2 < 500 ∧
    ∃ k1 k2, registerConstants 500 0 4294967295 initialConstants = some (1, k1) ∧
      k1.totalConstants = 0 ∧
      k1.totalConstants ≠ initialConstants.totalConstants + 4294967295 ∧
      registerConstants 500 1 2 k1 = some (0, k2) ∧
      blocksOverlap 1 4294967295 0 2 :=
  ⟨by decide, constant_blocks_overlap_after_wrap 500 (by decide) 0 1⟩

/-- C13, evaluated at the failing input: at counter 1 the total
`1 + 4294967295` exceeds every capacity below `2^32`, and yet for every
capacity of at least 1 the call `registerConstants(4294967295)` does not
abort: it returns offset 1 and sets the counter to 0. -/
theorem capacity_guard_bypassed (maxParams : Nat) (h0 : 0 < maxParams)
    (hcap : maxParams < 2 ^ 32) (this : CompId) :
    (maxParams : Int) < initialConstants.totalConstants + ((4294967295 : Nat) : Int) ∧
    registerConstants maxParams this 4294967295 initialConstants
      = some (1, { totalConstants := 0,
                   cIndex := Function.update initialConstants.cIndex this 1 }) := by
  refine ⟨?_, registerConstants_wrap maxParams h0 this⟩
  simp only [initialConstants]
  have : (maxParams : Int) < 2 ^ 32 := by exact_mod_cast hcap
  omega

/-- The failing input of C13 at a capacity of 500. -/
theorem capacity_guard_bypassed_witness :
    0 < 500 ∧ 500 < 2 ^ 32 ∧
    ((500 : Nat) : Int) < initialConstants.totalConstants + ((4294967295 : Nat) : Int) ∧
    registerConstants 500 0 4294967295 initialConstants
      = some (1, { totalConstants := 0,
                   cIndex := Function.update initialConstants.cIndex 0 1 }) :=
  ⟨by decide, by norm_num, capacity_guard_bypassed 500 (by decide) (by norm_num) 0⟩

/-- C14, evaluated at the failing input: starting from the initial counter 1
and for every capacity above 1, `registerConstants(4294967295)` returns and
leaves the counter at 0, below 1, and the next call `registerConstants(1)`
returns offset 0. -/
theorem offset_zero_issued (maxParams : Nat) (h : 1 < maxParams) (a b : CompId) :
    ∃ k1 k2, registerConstants maxParams a 4294967295 initialConstants = some (1, k1) ∧
      k1.totalConstants < 1 ∧
      registerConstants maxParams b 1 k1 = some (0, k2) := by
  exact ⟨{ totalConstants := 0, cIndex := Function.update initialConstants.cIndex a 1 }, _,
    registerConstants_wrap maxParams (by omega) a, by simp,
    registerConstants_at_zero maxParams b 1 _ h (by norm_num)⟩

/-- The failing input of C14 at a capacity of 500. -/
theorem offset_zero_issued_witness :
    1 < 500 ∧
    ∃ k1 k2, registerConstants 500 0 4294967295 initialConstants = some (1, k1) ∧
      k1.totalConstants < 1 ∧
      registerConstants 500 1 1 k1 = some (0, k2) :=
  ⟨by decide, offset_zero_issued 500 (by decide) 0 1⟩




/-! ## Normalisation broadcast -/

/-- The write of `recursiveSetNormalisation` at one node. -/
theorem recursiveSetNormalisation_eq_foldl {fptype : Type} (maxParams : Nat) (norm : fptype) :
    (∀ (t : FunctorBase) (h : Host fptype), (∀ c ∈ t.nodes, h.parameters c < maxParams) →
      recursiveSetNormalisation maxParams norm t h
        = some { h with
            host_normalisation := t.nodes.foldl
              (fun a c => Function.update a (h.parameters c) norm) h.host_normalisation }) ∧
    (∀ (ts : List FunctorBase) (h : Host fptype),
      (∀ c ∈ nodesOfComponents ts, h.parameters c < maxParams) →
      recursiveSetNormalisationComponents maxParams norm ts h
        = some { h with
            host_normalisation := (nodesOfComponents ts).foldl
              (fun a c => Function.update a (h.parameters c) norm) h.host_normalisation }) := by
  apply functorBase_induction
  · intro c cs ih h hb
    have hc : h.parameters c < maxParams := hb c (by simp [FunctorBase.nodes])
    have hcs : ∀ d ∈ nodesOfComponents cs, h.parameters d < maxParams :=
      fun d hd => hb d (by simp [FunctorBase.nodes, hd])
    simp only [recursiveSetNormalisation, if_pos hc, FunctorBase.nodes, List.foldl_cons]
    exact ih _ hcs
  · intro h _
    simp [recursiveSetNormalisationComponents, nodesOfComponents]
  · intro t ts iht ihts h hb
    have h1 : ∀ c ∈ t.nodes, h.parameters c < maxParams :=
      fun c hc => hb c (by simp [nodesOfComponents, hc])
    have h2 : ∀ c ∈ nodesOfComponents ts, h.parameters c < maxParams :=
      fun c hc => hb c (by simp [nodesOfComponents, hc])
    simp only [recursiveSetNormalisationComponents, iht h h1, nodesOfComponents,
      List.foldl_append]
    exact ihts _ h2

theorem foldl_update_of_mem {fptype : Type} (slot : CompId → Nat) (norm : fptype)
    (l : List CompId) : ∀ (a : Nat → fptype) (c : CompId), c ∈ l →
    l.foldl (fun a c => Function.update a (slot c) norm) a (slot c) = norm := by
  induction l using List.reverseRecOn with
  | nil => intro a c h; simp at h
  | append_singleton l d ih =>
    intro a c h
    rw [List.foldl_append, List.foldl_cons, List.foldl_nil]
    by_cases hcd : slot c = slot d
    · rw [hcd, Function.update_same]
    · rw [Function.update_noteq hcd]
      apply ih
      rcases List.mem_append.mp h with h | h
      · exact h
      · simp at h; subst h; exact absurd rfl hcd

theorem foldl_update_of_not_mem {fptype : Type} (slot : CompId → Nat) (norm : fptype)
    (l : List CompId) : ∀ (a : Nat → fptype) (i : Nat), (∀ c ∈ l, slot c ≠ i) →
    l.foldl (fun a c => Function.update a (slot c) norm) a i = a i := by
  induction l with
  | nil => intro a i _; rfl
  | cons d l ih =>
    intro a i h
    rw [List.foldl_cons, ih _ _ (fun c hc => h c (List.mem_cons_of_mem _ hc))]
    exact Function.update_noteq (fun e => h d (List.mem_cons_self _ _) e.symm) _ _

/-- C11 (`recursiveSetNormalisation` broadcasts and touches nothing else):
when the position of every node of the tree lies inside the normalisation
array, the call returns; afterwards the array holds the value at the position
of every node of the tree, every position that is the position of no node is
unchanged, and so are the parameter values, the snapshots and the positions
of the components. -/
theorem recursiveSetNormalisation_broadcast {fptype : Type} (maxParams : Nat)
    (norm : fptype) (t : FunctorBase) (h : Host fptype)
    (hslots : ∀ c ∈ t.nodes, h.parameters c < maxParams) :
    ∃ h', recursiveSetNormalisation maxParams norm t h = some h' ∧
      (∀ c ∈ t.nodes, h'.host_normalisation (h.parameters c) = norm) ∧
      (∀ i, (∀ c ∈ t.nodes, h.parameters c ≠ i) →
        h'.host_normalisation i = h.host_normalisation i) ∧
      h'.host_params = h.host_params ∧ h'.cachedParams = h.cachedParams ∧
      h'.parameters = h.parameters := by
  refine ⟨_, (recursiveSetNormalisation_eq_foldl maxParams norm).1 t h hslots,
    ?_, ?_, rfl, rfl, rfl⟩
  · intro c hc
    exact foldl_update_of_mem h.parameters norm _ _ c hc
  · intro i hi
    exact foldl_update_of_not_mem h.parameters norm _ _ i hi



/-! ## The parameter-change cache -/

theorem readParam_of_inBounds {fptype : Type} (maxParams : Nat) (host_params : Nat → fptype)
    {i : Int} (h : 0 ≤ i ∧ i < (maxParams : Int)) :
    readParam maxParams host_params i = some (host_params i.toNat) := by
  simp [readParam, h]

theorem inBounds_of_readParam {fptype : Type} (maxParams : Nat) (host_params : Nat → fptype)
    {i : Int} {x : fptype} (h : readParam maxParams host_params i = some x) :
    (0 ≤ i ∧ i < (maxParams : Int)) ∧ x = host_params i.toNat := by
  unfold readParam at h
  by_cases hb : 0 ≤ i ∧ i < (maxParams : Int)
  · rw [if_pos hb] at h
    exact ⟨hb, (Option.some.inj h).symm⟩
  · rw [if_neg hb] at h
    cases h

theorem mismatch_nil {fptype : Type} (ne : fptype → fptype → Bool) (s : State)
    (host_params : Nat → fptype) (cached : List fptype) (counter : Nat) :
    ¬ Mismatch ne s host_params cached [] counter := by
  rintro ⟨i, v, c, h, -, -⟩
  simp at h

theorem mismatch_cons {fptype : Type} (ne : fptype → fptype → Bool) (s : State)
    (host_params : Nat → fptype) (cached : List fptype) (v : VarId) (params : List VarId)
    (counter : Nat) :
    Mismatch ne s host_params cached (v :: params) counter ↔
      (∃ c, cached[counter]? = some c ∧ ne c (host_params (s.index v).toNat) = true) ∨
      Mismatch ne s host_params cached params (counter + 1) := by
  constructor
  · rintro ⟨i, w, c, h1, h2, h3⟩
    cases i with
    | zero =>
      simp only [List.getElem?_cons_zero, Option.some.injEq] at h1
      subst h1
      exact Or.inl ⟨c, by simpa using h2, h3⟩
    | succ j =>
      simp only [List.getElem?_cons_succ] at h1
      refine Or.inr ⟨j, w, c, h1, ?_, h3⟩
      have e : counter + 1 + j = counter + (j + 1) := by omega
      rw [e]; exact h2
  · rintro (⟨c, h2, h3⟩ | ⟨j, w, c, h1, h2, h3⟩)
    · exact ⟨0, v, c, by simp, by simpa using h2, h3⟩
    · refine ⟨j + 1, w, c, by simpa using h1, ?_, h3⟩
      have e : counter + (j + 1) = counter + 1 + j := by omega
      rw [e]; exact h2

theorem parametersChangedLoop_spec {fptype : Type} (ne : fptype → fptype → Bool)
    (maxParams : Nat) (s : State) (host_params : Nat → fptype) (cached : List fptype) :
    ∀ (params : List VarId) (counter : Nat), InBounds maxParams s params →
      counter ≤ cached.length →
      (Mismatch ne s host_params cached params counter →
        parametersChangedLoop ne maxParams s host_params cached params counter = some true) ∧
      (¬ Mismatch ne s host_params cached params counter →
        counter + params.length ≤ cached.length →
        parametersChangedLoop ne maxParams s host_params cached params counter = some false) ∧
      (¬ Mismatch ne s host_params cached params counter →
        cached.length < counter + params.length →
        parametersChangedLoop ne maxParams s host_params cached params counter = none) := by
  intro params
  induction params with
  | nil =>
    intro counter _ hc
    refine ⟨fun h => absurd h (mismatch_nil ne s host_params cached counter), ?_, ?_⟩
    · intro _ _; rfl
    · intro _ h; simp at h; omega
  | cons v params ih =>
    intro counter hb hc
    have hv := hb v (List.mem_cons_self _ _)
    have hb' : InBounds maxParams s params := fun w hw => hb w (List.mem_cons_of_mem _ hw)
    have hread := readParam_of_inBounds maxParams host_params hv
    rw [mismatch_cons]
    cases hget : cached[counter]? with
    | none =>
      have hlen : cached.length ≤ counter := List.getElem?_eq_none_iff.mp hget
      have hno : ¬ Mismatch ne s host_params cached params (counter + 1) := by
        rintro ⟨i, w, c, -, h2, -⟩
        have : cached[counter + 1 + i]? = none := List.getElem?_eq_none_iff.mpr (by omega)
        rw [this] at h2; cases h2
      have hloop : parametersChangedLoop ne maxParams s host_params cached (v :: params) counter
          = none := by
        simp [parametersChangedLoop, hget]
      refine ⟨?_, ?_, ?_⟩
      · rintro (⟨c, h2, -⟩ | h)
        · cases h2
        · exact absurd h hno
      · intro _ h; simp at h; omega
      · intro _ _; exact hloop
    | some c =>
      have hlt : counter < cached.length := by
        by_contra hge
        have : cached[counter]? = none := List.getElem?_eq_none_iff.mpr (by omega)
        rw [this] at hget; cases hget
      obtain ⟨ih1, ih2, ih3⟩ := ih (counter + 1) hb' hlt
      by_cases hne : ne c (host_params (s.index v).toNat) = true
      · have hloop : parametersChangedLoop ne maxParams s host_params cached (v :: params)
            counter = some true := by
          simp [parametersChangedLoop, hget, hread, hne]
        refine ⟨fun _ => hloop, ?_, ?_⟩
        · intro hno; exact absurd (Or.inl ⟨c, rfl, hne⟩) hno
        · intro hno; exact absurd (Or.inl ⟨c, rfl, hne⟩) hno
      · have hloop : parametersChangedLoop ne maxParams s host_params cached (v :: params)
            counter
            = parametersChangedLoop ne maxParams s host_params cached params (counter + 1) := by
          simp [parametersChangedLoop, hget, hread, hne]
        rw [hloop]
        refine ⟨?_, ?_, ?_⟩
        · rintro (⟨c', h2, h3⟩ | h)
          · cases h2; exact absurd h3 hne
          · exact ih1 h
        · intro hno hlen
          exact ih2 (fun h => hno (Or.inr h)) (by simp at hlen; omega)
        · intro hno hlen
          exact ih3 (fun h => hno (Or.inr h)) (by simp at hlen; omega)



theorem storeParametersLoop_returns {fptype : Type} (maxParams : Nat) (s : State)
    (host_params : Nat → fptype) :
    ∀ (params : List VarId) (counter : Nat) (cached : List fptype),
      InBounds maxParams s params → counter + params.length ≤ cached.length →
      ∃ filled, storeParametersLoop maxParams s host_params params counter cached
        = some filled := by
  intro params
  induction params with
  | nil => intro counter cached _ _; exact ⟨cached, rfl⟩
  | cons v params ih =>
    intro counter cached hb hlen
    have hv := hb v (List.mem_cons_self _ _)
    have hb' : InBounds maxParams s params := fun w hw => hb w (List.mem_cons_of_mem _ hw)
    have hlt : counter < cached.length := by simp at hlen; omega
    obtain ⟨filled, hf⟩ := ih (counter + 1) (cached.set counter (host_params (s.index v).toNat))
      hb' (by simp at hlen ⊢; omega)
    refine ⟨filled, ?_⟩
    simp only [storeParametersLoop, readParam_of_inBounds maxParams host_params hv, if_pos hlt]
    exact hf

theorem storeParametersLoop_inv {fptype : Type} (maxParams : Nat) (s : State)
    (host_params : Nat → fptype) :
    ∀ (params : List VarId) (counter : Nat) (cached filled : List fptype),
      storeParametersLoop maxParams s host_params params counter cached = some filled →
      InBounds maxParams s params ∧ filled.length = cached.length ∧
      (∀ i v, params[i]? = some v →
        filled[counter + i]? = some (host_params (s.index v).toNat)) ∧
      (∀ j, j < counter → filled[j]? = cached[j]?) := by
  intro params
  induction params with
  | nil =>
    intro counter cached filled h
    simp only [storeParametersLoop, Option.some.injEq] at h
    subst h
    exact ⟨fun v hv => by simp at hv, rfl, fun i v hv => by simp at hv, fun _ _ => rfl⟩
  | cons v params ih =>
    intro counter cached filled h
    unfold storeParametersLoop at h
    cases hread : readParam maxParams host_params (s.index v) with
    | none => rw [hread] at h; cases h
    | some x =>
      rw [hread] at h
      simp only at h
      obtain ⟨hv, hx⟩ := inBounds_of_readParam maxParams host_params hread
      by_cases hlt : counter < cached.length
      · rw [if_pos hlt] at h
        obtain ⟨hb', hlen, hpos, hframe⟩ := ih (counter + 1) (cached.set counter x) filled h
        refine ⟨?_, ?_, ?_, ?_⟩
        · intro w hw
          rcases List.mem_cons.mp hw with rfl | hw'
          · exact hv
          · exact hb' w hw'
        · simpa using hlen
        · intro i w hiw
          cases i with
          | zero =>
            simp only [List.getElem?_cons_zero, Option.some.injEq] at hiw
            subst hiw
            rw [Nat.add_zero, hframe counter (by omega), ← hx]
            simp [hlt]
          | succ j =>
            simp only [List.getElem?_cons_succ] at hiw
            have e : counter + (j + 1) = counter + 1 + j := by omega
            rw [e]
            exact hpos j w hiw
        · intro j hj
          rw [hframe j (by omega)]
          have : counter ≠ j := by omega
          simp [List.getElem?_set, this]
      · rw [if_neg hlt] at h; cases h

/-- What a returning `storeParameters` leaves behind: the snapshot holds, at
the position of every Variable of the parameter sequence, the live value of
that Variable; the arrays are unchanged. -/
theorem storeParameters_inv {fptype : Type} (maxParams : Nat) (indeterminate : fptype)
    (s : State) (h h' : Host fptype) (t : FunctorBase)
    (hs : storeParameters maxParams indeterminate s h t = some h') :
    InBounds maxParams s (getParameters s t []) ∧ h'.host_params = h.host_params ∧
    ∃ filled, h'.cachedParams t.self = some filled ∧
      ∀ (i : Nat) (v : VarId), (getParameters s t [])[i]? = some v →
        filled[i]? = some (h.host_params (s.index v).toNat) := by
  unfold storeParameters at hs
  simp only at hs
  split at hs
  · cases hs
  · rename_i filled hloop
    cases hs
    obtain ⟨hb, -, hpos, -⟩ := storeParametersLoop_inv maxParams s h.host_params _ _ _ _ hloop
    refine ⟨hb, rfl, filled, by simp, ?_⟩
    intro i v hv
    simpa using hpos i v hv

theorem storeParameters_returns {fptype : Type} (maxParams : Nat) (indeterminate : fptype)
    (s : State) (h : Host fptype) (t : FunctorBase)
    (hidx : InBounds maxParams s (getParameters s t []))
    (hroom : ∀ c, h.cachedParams t.self = some c → (getParameters s t []).length ≤ c.length) :
    ∃ h', storeParameters maxParams indeterminate s h t = some h' := by
  unfold storeParameters
  simp only
  cases hc : h.cachedParams t.self with
  | none =>
    obtain ⟨filled, hf⟩ := storeParametersLoop_returns maxParams s h.host_params
      (getParameters s t []) 0 (List.replicate (getParameters s t []).length indeterminate)
      hidx (by simp)
    simp only [hf]
    exact ⟨_, rfl⟩
  | some c =>
    obtain ⟨filled, hf⟩ := storeParametersLoop_returns maxParams s h.host_params
      (getParameters s t []) 0 c hidx (by simpa using hroom c hc)
    simp only [hf]
    exact ⟨_, rfl⟩

theorem length_le_of_getElem? {fptype : Type} (params : List VarId) (filled : List fptype)
    (h : ∀ (i : Nat) (v : VarId), params[i]? = some v → ∃ c, filled[i]? = some c) :
    params.length ≤ filled.length := by
  by_contra hlt
  have hlt' : filled.length < params.length := by omega
  obtain ⟨c, hc⟩ := h filled.length (params[filled.length]) (List.getElem?_eq_getElem hlt')
  have : filled[filled.length]? = none := List.getElem?_eq_none_iff.mpr (le_refl _)
  rw [this] at hc; cases hc



/-- The snapshot of a returning `storeParameters` shows no mismatch as long as
every tracked value compares equal to itself. -/
theorem no_mismatch_after_store {fptype : Type} (ne : fptype → fptype → Bool) (s : State)
    (host_params : Nat → fptype) (params : List VarId) (filled : List fptype)
    (hpos : ∀ (i : Nat) (v : VarId), params[i]? = some v →
      filled[i]? = some (host_params (s.index v).toNat))
    (hself : ∀ v ∈ params,
      ne (host_params (s.index v).toNat) (host_params (s.index v).toNat) = false) :
    ¬ Mismatch ne s host_params filled params 0 := by
  rintro ⟨i, v, c, h1, h2, h3⟩
  rw [Nat.zero_add, hpos i v h1] at h2
  cases h2
  have hv : v ∈ params := List.getElem?_mem h1
  rw [hself v hv] at h3
  cases h3

/-- C15, the claim as stated fails.  First, for a tracked value NaN: component
0 has the single parameter Variable 5 at index 0, whose value is NaN;
`storeParameters` stores NaN, and `parametersChanged` at once returns true.
Second, for a snapshot that is too short: component 0 took a snapshot of one
entry when Variable 5 was its only parameter and has registered Variable 6
since; `storeParameters` writes past the end of the snapshot. -/
theorem store_then_changed_counterexample :
    (getParameters exampleOne (.mk 0 []) [] = [5] ∧ exampleOne.index 5 = 0 ∧
      exampleHostNaN.host_params 0 = .nan ∧ exampleHostNaN.cachedParams 0 = none ∧
      (storeParameters 500 (.number 0) exampleOne exampleHostNaN (.mk 0 [])).map
          (fun h => h.cachedParams 0) = some (some [.nan]) ∧
      (storeParameters 500 (.number 0) exampleOne exampleHostNaN (.mk 0 [])).bind
          (fun h => parametersChanged FloatValue.ne 500 exampleOne h (.mk 0 []))
        = some true) ∧
    ((storeParameters 500 (.number 0) exampleOne exampleHost (.mk 0 [])).map
          (fun h => h.cachedParams 0) = some (exampleHostStored.cachedParams 0) ∧
      getParameters exampleTwo (.mk 0 []) [] = [5, 6] ∧
      exampleTwo.index 5 = 0 ∧ exampleTwo.index 6 = 1 ∧
      (storeParameters 500 (.number 0) exampleTwo exampleHostStored (.mk 0 [])).isNone
        = true) := by
  decide

/-- C15, amended: when the index of every parameter of the tree is a position
of the parameter-value array, every tracked value compares equal to itself
(none is NaN), and the snapshot, if one is allocated already, has at least as
many entries as the parameter sequence, `storeParameters` returns and
`parametersChanged`, called at once, returns false. -/
theorem store_then_unchanged {fptype : Type} (ne : fptype → fptype → Bool)
    (maxParams : Nat) (indeterminate : fptype) (s : State) (h : Host fptype)
    (t : FunctorBase)
    (hidx : InBounds maxParams s (getParameters s t []))
    (hroom : ∀ c, h.cachedParams t.self = some c → (getParameters s t []).length ≤ c.length)
    (hself : ∀ v ∈ getParameters s t [],
      ne (h.host_params (s.index v).toNat) (h.host_params (s.index v).toNat) = false) :
    ∃ h', storeParameters maxParams indeterminate s h t = some h' ∧
      parametersChanged ne maxParams s h' t = some false := by
  obtain ⟨h', hs⟩ := storeParameters_returns maxParams indeterminate s h t hidx hroom
  obtain ⟨-, hhp, filled, hf, hpos⟩ := storeParameters_inv maxParams indeterminate s h h' t hs
  refine ⟨h', hs, ?_⟩
  have hlen : (getParameters s t []).length ≤ filled.length :=
    length_le_of_getElem? _ _ (fun i v hv => ⟨_, hpos i v hv⟩)
  have hno := no_mismatch_after_store ne s h.host_params _ filled hpos hself
  have hspec := (parametersChangedLoop_spec ne maxParams s h.host_params filled
    (getParameters s t []) 0 hidx (Nat.zero_le _)).2.1 hno (by simpa using hlen)
  simp only [parametersChanged, hf, hhp]
  exact hspec

/-- Component 0 with the parameters 5 and 6 at indices 0 and 1, both of value
1, and no snapshot yet: store, then unchanged. -/
theorem store_then_unchanged_witness :
    InBounds 500 exampleTwo (getParameters exampleTwo (.mk 0 []) []) ∧
    (∀ c, exampleHost.cachedParams (FunctorBase.mk 0 []).self = some c →
      (getParameters exampleTwo (.mk 0 []) []).length ≤ c.length) ∧
    (∀ v ∈ getParameters exampleTwo (.mk 0 []) [],
      FloatValue.ne (exampleHost.host_params (exampleTwo.index v).toNat)
        (exampleHost.host_params (exampleTwo.index v).toNat) = false) ∧
    ∃ h', storeParameters 500 (.number 0) exampleTwo exampleHost (.mk 0 []) = some h' ∧
      parametersChanged FloatValue.ne 500 exampleTwo h' (.mk 0 []) = some false :=
  ⟨by unfold InBounds; decide, (fun c hc => by simp [exampleHost] at hc), by decide,
   store_then_unchanged FloatValue.ne 500 (.number 0) exampleTwo exampleHost (.mk 0 [])
     (by unfold InBounds; decide) (fun c hc => by simp [exampleHost] at hc) (by decide)⟩

/-- C16 (dirty-check characterisation): `parametersChanged` returns true when
no snapshot exists; when a snapshot exists that has an entry for every
parameter of the current sequence, and every index is a position of the
parameter-value array, it returns, and returns true exactly when at some
position the snapshot entry differs from the live value of the Variable at
that position; and when every index is a position of the array and the
snapshot, if one is allocated already, has an entry for every parameter,
`storeParameters` returns, and writing afterwards a value that differs from
the stored one for any tracked Variable makes `parametersChanged` return
true. -/
theorem parametersChanged_characterisation {fptype : Type} (ne : fptype → fptype → Bool)
    (maxParams : Nat) (indeterminate : fptype) (s : State) (h : Host fptype)
    (t : FunctorBase) :
    (h.cachedParams t.self = none → parametersChanged ne maxParams s h t = some true) ∧
    (∀ cached, h.cachedParams t.self = some cached →
      (getParameters s t []).length ≤ cached.length →
      InBounds maxParams s (getParameters s t []) →
      ∃ b, parametersChanged ne maxParams s h t = some b ∧
        (b = true ↔ ∃ (i : Nat) (v : VarId) (c : fptype),
          (getParameters s t [])[i]? = some v ∧ cached[i]? = some c ∧
          ne c (h.host_params (s.index v).toNat) = true)) ∧
    (InBounds maxParams s (getParameters s t []) →
      (∀ c, h.cachedParams t.self = some c → (getParameters s t []).length ≤ c.length) →
      ∃ h', storeParameters maxParams indeterminate s h t = some h' ∧
        ∀ (v : VarId) (x : fptype), v ∈ getParameters s t [] →
          ne (h.host_params (s.index v).toNat) x = true →
          parametersChanged ne maxParams s
            { h' with host_params := Function.update h'.host_params (s.index v).toNat x } t
            = some true) := by
  refine ⟨?_, ?_, ?_⟩
  · intro hc
    simp [parametersChanged, hc]
  · intro cached hc hlen hidx
    obtain ⟨h1, h2, -⟩ := parametersChangedLoop_spec ne maxParams s h.host_params cached
      (getParameters s t []) 0 hidx (Nat.zero_le _)
    have hm : Mismatch ne s h.host_params cached (getParameters s t []) 0 ↔
        ∃ (i : Nat) (v : VarId) (c : fptype),
          (getParameters s t [])[i]? = some v ∧ cached[i]? = some c ∧
          ne c (h.host_params (s.index v).toNat) = true := by
      simp only [Mismatch, Nat.zero_add]
    by_cases hmis : Mismatch ne s h.host_params cached (getParameters s t []) 0
    · refine ⟨true, ?_, ?_⟩
      · simp only [parametersChanged, hc]; exact h1 hmis
      · exact ⟨fun _ => hm.mp hmis, fun _ => rfl⟩
    · refine ⟨false, ?_, ?_⟩
      · simp only [parametersChanged, hc]; exact h2 hmis (by simpa using hlen)
      · exact ⟨fun e => (by cases e), fun e => absurd (hm.mpr e) hmis⟩
  · intro hidx hroom
    obtain ⟨h', hs⟩ := storeParameters_returns maxParams indeterminate s h t hidx hroom
    refine ⟨h', hs, ?_⟩
    intro v x hv hx
    obtain ⟨-, hhp, filled, hf, hpos⟩ :=
      storeParameters_inv maxParams indeterminate s h h' t hs
    obtain ⟨i, hi⟩ := List.mem_iff_getElem?.mp hv
    have hmis : Mismatch ne s (Function.update h'.host_params (s.index v).toNat x) filled
        (getParameters s t []) 0 := by
      refine ⟨i, v, _, hi, by rw [Nat.zero_add]; exact hpos i v hi, ?_⟩
      rw [Function.update_same]
      exact hx
    have hspec := (parametersChangedLoop_spec ne maxParams s
      (Function.update h'.host_params (s.index v).toNat x) filled
      (getParameters s t []) 0 hidx (Nat.zero_le _)).1 hmis
    simp only [parametersChanged, hf]
    exact hspec

/-- The three parts at concrete inputs.  Component 0 with the parameters 5
and 6 and no snapshot: true.  Component 0 with the single parameter 5 and a
snapshot of its value 1: false while the value is 1, true once it is 2, as
the characterisation says.  Component 0 with the parameters 5 and 6 and no
snapshot: `storeParameters` returns, and a differing value written for a
tracked Variable gives true. -/
theorem parametersChanged_characterisation_witness :
    (exampleHost.cachedParams (FunctorBase.mk 0 []).self = none ∧
      parametersChanged FloatValue.ne 500 exampleTwo exampleHost (.mk 0 []) = some true) ∧
    (exampleHostChanged.cachedParams (FunctorBase.mk 0 []).self = some [.number 1] ∧
      (getParameters exampleOne (.mk 0 []) []).length ≤ [FloatValue.number 1].length ∧
      InBounds 500 exampleOne (getParameters exampleOne (.mk 0 []) []) ∧
      parametersChanged FloatValue.ne 500 exampleOne exampleHostStored (.mk 0 [])
        = some false ∧
      parametersChanged FloatValue.ne 500 exampleOne exampleHostChanged (.mk 0 [])
        = some true ∧
      ∃ b, parametersChanged FloatValue.ne 500 exampleOne exampleHostChanged (.mk 0 [])
          = some b ∧
        (b = true ↔ ∃ (i : Nat) (v : VarId) (c : FloatValue),
          (getParameters exampleOne (.mk 0 []) [])[i]? = some v ∧
          [FloatValue.number 1][i]? = some c ∧
          FloatValue.ne c (exampleHostChanged.host_params (exampleOne.index v).toNat)
            = true)) ∧
    (InBounds 500 exampleTwo (getParameters exampleTwo (.mk 0 []) []) ∧
      (∀ c, exampleHost.cachedParams (FunctorBase.mk 0 []).self = some c →
        (getParameters exampleTwo (.mk 0 []) []).length ≤ c.length) ∧
      ∃ h', storeParameters 500 (.number 0) exampleTwo exampleHost (.mk 0 []) = some h' ∧
        ∀ (v : VarId) (x : FloatValue), v ∈ getParameters exampleTwo (.mk 0 []) [] →
          FloatValue.ne (exampleHost.host_params (exampleTwo.index v).toNat) x = true →
          parametersChanged FloatValue.ne 500 exampleTwo
            { h' with
              host_params := Function.update h'.host_params (exampleTwo.index v).toNat x }
            (.mk 0 []) = some true) :=
  ⟨⟨by decide,
    (parametersChanged_characterisation FloatValue.ne 500 (.number 0) exampleTwo exampleHost
      (.mk 0 [])).1 (by decide)⟩,
   ⟨by decide, by decide, (by unfold InBounds; decide), by decide, by decide,
    (parametersChanged_characterisation FloatValue.ne 500 (.number 0) exampleOne
      exampleHostChanged (.mk 0 [])).2.1 [.number 1] (by decide) (by decide)
      (by unfold InBounds; decide)⟩,
   ⟨(by unfold InBounds; decide), (fun c hc => by simp [exampleHost] at hc),
    (parametersChanged_characterisation FloatValue.ne 500 (.number 0) exampleTwo exampleHost
      (.mk 0 [])).2.2 (by unfold InBounds; decide)
      (fun c hc => by simp [exampleHost] at hc)⟩⟩

/-- C18, evaluated at the failing input: component 0 holds a snapshot of one
entry, equal to the live value of its first parameter, and has two parameters
by now.  The loop of `parametersChanged` runs over the current parameters: it
finds the first position equal and goes on to the second parameter, for which
it reads the snapshot at position 1, outside the one allocated entry (the
result `none`), whereas the claim has the comparison end with the snapshot.
Every index is a position of the parameter-value array, so the access outside
an array is the one to the snapshot. -/
theorem parametersChanged_reads_past_snapshot :
    exampleHostStored.cachedParams 0 = some [.number 1] ∧
    getParameters exampleTwo (.mk 0 []) [] = [5, 6] ∧
    exampleTwo.index 5 = 0 ∧ exampleTwo.index 6 = 1 ∧
    readParam 500 exampleHostStored.host_params (exampleTwo.index 5) = some (.number 1) ∧
    readParam 500 exampleHostStored.host_params (exampleTwo.index 6) = some (.number 1) ∧
    FloatValue.ne (.number 1) (.number 1) = false ∧
    [FloatValue.number 1][1]? = none ∧
    parametersChanged FloatValue.ne 500 exampleTwo exampleHostStored (.mk 0 []) = none := by
  decide

/-- The parent 0 and its child 1 at positions 2 and 3 of the normalisation
array. -/
theorem recursiveSetNormalisation_broadcast_witness :
    (∀ c ∈ exampleTree.nodes, exampleHostSlots.parameters c < 500) ∧
    ∃ h', recursiveSetNormalisation 500 (FloatValue.number 7) exampleTree exampleHostSlots
        = some h' ∧
      (∀ c ∈ exampleTree.nodes,
        h'.host_normalisation (exampleHostSlots.parameters c) = .number 7) ∧
      (∀ i, (∀ c ∈ exampleTree.nodes, exampleHostSlots.parameters c ≠ i) →
        h'.host_normalisation i = exampleHostSlots.host_normalisation i) ∧
      h'.host_params = exampleHostSlots.host_params ∧
      h'.cachedParams = exampleHostSlots.cachedParams ∧
      h'.parameters = exampleHostSlots.parameters :=
  ⟨by decide,
   recursiveSetNormalisation_broadcast 500 (.number 7) exampleTree exampleHostSlots
     (by decide)⟩




/-! ## The multi-context build -/

theorem scanUnusedIndexOMP_eq_view (S : StateOMP) (tid : Nat) :
    ∀ fuel u, scanUnusedIndexOMP S tid fuel u = scanUnusedIndex (S.view tid) fuel u := by
  intro fuel
  induction fuel with
  | zero => intro u; rfl
  | succ f ih =>
    intro u
    simp only [scanUnusedIndexOMP, scanUnusedIndex, ih]
    rfl

theorem registerParameterOMP_of_mem {tid : Nat} {this : CompId} {v : VarId} {S : StateOMP}
    (h : v ∈ S.parameterList this) :
    registerParameterOMP tid this (some v) S = some (toUnsigned (S.index v), S) := by
  simp [registerParameterOMP, h]

theorem registerParameterOMP_of_assigned {tid : Nat} {this : CompId} {v : VarId}
    {S : StateOMP} (h : v ∉ S.parameterList this) (hi : 0 ≤ S.index v) :
    registerParameterOMP tid this (some v) S
      = some (toUnsigned (S.index v), addParameterOMP tid this v S) := by
  have : ¬ (S.index v < 0) := by omega
  simp [registerParameterOMP, h, this, addParameterOMP]

theorem registerParameterOMP_of_unassigned {tid : Nat} {this : CompId} {v : VarId}
    {S : StateOMP} (h : v ∉ S.parameterList this) (hi : S.index v < 0) :
    ∃ n, canUse ((addParameterOMP tid this v S).view tid) n = true ∧
      registerParameterOMP tid this (some v) S
        = some (n, { addParameterOMP tid this v S with
                      index := Function.update S.index v (n : Int) }) := by
  obtain ⟨n, hn⟩ := scanUnusedIndex_total ((addParameterOMP tid this v S).view tid)
  obtain ⟨hcan, -, -⟩ := scanUnusedIndex_some _ _ _ _ hn
  refine ⟨n, hcan, ?_⟩
  rw [← scanUnusedIndexOMP_eq_view] at hn
  have hn' := hn
  simp only [addParameterOMP, StateOMP.view, Function.update_same] at hn'
  simp [registerParameterOMP, h, hi, addParameterOMP, hn', toUnsigned_natCast]

theorem registerParameterOMP_returns (tid : Nat) (this : CompId) (v : VarId) (S : StateOMP) :
    ∃ n S', registerParameterOMP tid this (some v) S = some (n, S') := by
  by_cases h : v ∈ S.parameterList this
  · exact ⟨_, _, registerParameterOMP_of_mem h⟩
  · by_cases hi : S.index v < 0
    · obtain ⟨n, _, hn⟩ := registerParameterOMP_of_unassigned h hi
      exact ⟨_, _, hn⟩
    · exact ⟨_, _, registerParameterOMP_of_assigned h (by omega)⟩

theorem addParameterOMP_entry_self (tid : Nat) (this : CompId) (v : VarId) (S : StateOMP) :
    ((addParameterOMP tid this v S).variableRegistry tid).entry v
      = insert this ((S.variableRegistry tid).entry v) := by
  simp [addParameterOMP, entry_insertComponent_self]

theorem addParameterOMP_entry_ne (tid : Nat) (this : CompId) (v : VarId) (S : StateOMP)
    (tid' : Nat) (w : VarId) (h : w ≠ v) :
    ((addParameterOMP tid this v S).variableRegistry tid').entry w
      = (S.variableRegistry tid').entry w := by
  by_cases ht : tid' = tid
  · subst ht
    simp [addParameterOMP, entry_insertComponent_ne _ _ h]
  · simp [addParameterOMP, Function.update_noteq ht]

theorem addParameterOMP_keys (tid : Nat) (this : CompId) (v : VarId) (S : StateOMP)
    (tid' : Nat) (w : VarId) :
    w ∈ ((addParameterOMP tid this v S).variableRegistry tid').keys ↔
      (tid' = tid ∧ w = v) ∨ w ∈ (S.variableRegistry tid').keys := by
  by_cases ht : tid' = tid
  · subst ht
    simp [addParameterOMP, mem_keys_insertComponent]
  · simp [addParameterOMP, Function.update_noteq ht, ht]

theorem addParameterOMP_entry_of_other (tid : Nat) (this : CompId) (v : VarId) (S : StateOMP)
    (tid' : Nat) (h : tid' ≠ tid) :
    (addParameterOMP tid this v S).variableRegistry tid' = S.variableRegistry tid' := by
  simp [addParameterOMP, Function.update_noteq h]


theorem unregisterLocalOMP_entry_self (tid : Nat) (this : CompId) (v : VarId) (S : StateOMP) :
    ((unregisterLocalOMP tid this v S).variableRegistry tid).entry v
      = ((S.variableRegistry tid).entry v).erase this := by
  simp only [unregisterLocalOMP]
  split <;> simp [entry_eraseComponent_self]

theorem unregisterLocalOMP_entry_ne (tid : Nat) (this : CompId) (v : VarId) (S : StateOMP)
    (tid' : Nat) (w : VarId) (h : w ≠ v) :
    ((unregisterLocalOMP tid this v S).variableRegistry tid').entry w
      = (S.variableRegistry tid').entry w := by
  simp only [unregisterLocalOMP]
  by_cases ht : tid' = tid
  · subst ht
    split <;> simp [entry_eraseComponent_ne _ _ h]
  · split <;> simp [Function.update_noteq ht]

theorem unregisterLocalOMP_registry_of_other (tid : Nat) (this : CompId) (v : VarId)
    (S : StateOMP) (tid' : Nat) (h : tid' ≠ tid) :
    (unregisterLocalOMP tid this v S).variableRegistry tid' = S.variableRegistry tid' := by
  simp only [unregisterLocalOMP]
  split <;> simp [Function.update_noteq h]

theorem unregisterLocalOMP_keys (tid : Nat) (this : CompId) (v : VarId) (S : StateOMP)
    (tid' : Nat) (w : VarId) :
    w ∈ ((unregisterLocalOMP tid this v S).variableRegistry tid').keys ↔
      (tid' = tid ∧ w = v) ∨ w ∈ (S.variableRegistry tid').keys := by
  simp only [unregisterLocalOMP]
  by_cases ht : tid' = tid
  · subst ht
    split <;> simp [mem_keys_eraseComponent]
  · split <;> simp [Function.update_noteq ht, ht]

theorem unregisterLocalOMP_index_ne (tid : Nat) (this : CompId) (v : VarId) (S : StateOMP)
    (w : VarId) (h : w ≠ v) : (unregisterLocalOMP tid this v S).index w = S.index w := by
  simp only [unregisterLocalOMP]
  split <;> simp [Function.update_noteq h]

theorem unregisterLocalOMP_index_of_empty (tid : Nat) (this : CompId) (v : VarId)
    (S : StateOMP) (h : ((S.variableRegistry tid).entry v).erase this = ∅) :
    (unregisterLocalOMP tid this v S).index v = -1 := by
  simp [unregisterLocalOMP, entry_eraseComponent_self, h]

theorem unregisterLocalOMP_index_of_ne_empty (tid : Nat) (this : CompId) (v : VarId)
    (S : StateOMP) (h : ((S.variableRegistry tid).entry v).erase this ≠ ∅) :
    (unregisterLocalOMP tid this v S).index v = S.index v := by
  simp [unregisterLocalOMP, entry_eraseComponent_self, h]

theorem unregisterParameterOMP_eq_foldl (tid : Nat) (v : VarId) :
    (∀ (t : FunctorBase) (S : StateOMP), unregisterParameterOMP tid (some v) t S
        = t.nodes.foldl (fun st c => unregisterLocalOMP tid c v st) S) ∧
    (∀ (ts : List FunctorBase) (S : StateOMP),
      unregisterParameterComponentsOMP tid (some v) ts S
        = (nodesOfComponents ts).foldl (fun st c => unregisterLocalOMP tid c v st) S) := by
  apply functorBase_induction
  · intro c cs ih S
    simp [unregisterParameterOMP, FunctorBase.nodes, ih]
  · intro S
    simp [unregisterParameterComponentsOMP, nodesOfComponents]
  · intro t ts iht ihts S
    simp [unregisterParameterComponentsOMP, nodesOfComponents, iht, ihts]

theorem initialStateOMP_consistent (home : VarId → Nat) (name : CompId → String)
    (properlyInitialised : CompId → Bool) (observables : CompId → List VarId) :
    ConsistentOMP home (initialStateOMP name properlyInitialised observables) where
  keys_home := by intro tid v h; simp [initialStateOMP] at h
  index_of_empty := by intro v _; simp [initialStateOMP]
  index_of_ne_empty := by intro tid v h; simp [initialStateOMP, entry_empty] at h
  index_unique := by intro v w _ h; simp [initialStateOMP] at h

theorem addParameterOMP_consistent (home : VarId → Nat) (this : CompId) (v : VarId)
    {S : StateOMP} (hS : ConsistentOMP home S) (index' : VarId → Int)
    (hother : ∀ w, w ≠ v → index' w = S.index w) (hv : 0 ≤ index' v)
    (hfree : index' v = S.index v ∨
      ∀ p ∈ ((addParameterOMP (home v) this v S).variableRegistry (home v)).keys,
        S.index p ≠ index' v) :
    ConsistentOMP home { addParameterOMP (home v) this v S with index := index' } := by
  refine ⟨?_, ?_, ?_, ?_⟩
  · intro tid w hw
    rcases (addParameterOMP_keys (home v) this v S tid w).mp hw with ⟨h1, h2⟩ | h
    · rw [h2, h1]
    · exact hS.keys_home tid w h
  · intro w hw
    by_cases hwv : w = v
    · subst hwv
      have := addParameterOMP_entry_self (home w) this w S
      simp only at hw
      rw [this] at hw
      exact absurd hw (Finset.insert_ne_empty _ _)
    · simp only at hw ⊢
      rw [addParameterOMP_entry_ne _ _ _ _ _ _ hwv] at hw
      rw [hother w hwv]
      exact hS.index_of_empty w hw
  · intro tid w hw
    by_cases hwv : w = v
    · subst hwv; exact hv
    · simp only at hw ⊢
      rw [addParameterOMP_entry_ne _ _ _ _ _ _ hwv] at hw
      rw [hother w hwv]
      exact hS.index_of_ne_empty tid w hw
  · have hclash : ∀ w, w ≠ v → home w = home v → 0 ≤ S.index w →
        S.index w = index' v → index' v = S.index v := by
      intro w hwv hhome h0 he
      rcases hfree with h | h
      · exact h
      · exfalso
        have hne : (S.variableRegistry (home w)).entry w ≠ ∅ := by
          intro hemp
          have := hS.index_of_empty w hemp
          omega
        have hk := mem_keys_of_entry_ne_empty _ _ hne
        rw [hhome] at hk
        exact h w ((addParameterOMP_keys (home v) this v S (home v) w).mpr (Or.inr hk)) he
    intro a b hab h0 he
    simp only at h0 he
    by_cases ha : a = v <;> by_cases hb : b = v
    · rw [ha, hb]
    · subst ha
      rw [hother b hb] at he
      have h1 := hclash b hb hab.symm (by omega) he.symm
      exact hS.index_unique a b hab (by omega) (by omega)
    · subst hb
      rw [hother a ha] at he h0
      have h1 := hclash a ha hab h0 he
      exact hS.index_unique a b hab h0 (by omega)
    · rw [hother a ha] at he h0
      rw [hother b hb] at he
      exact hS.index_unique a b hab h0 he

theorem registerParameterOMP_consistent (home : VarId → Nat) {this : CompId} {v : VarId}
    {S S' : StateOMP} {n : Nat} (hS : ConsistentOMP home S)
    (h : registerParameterOMP (home v) this (some v) S = some (n, S')) :
    ConsistentOMP home S' := by
  by_cases hm : v ∈ S.parameterList this
  · rw [registerParameterOMP_of_mem hm] at h
    cases h
    exact hS
  · by_cases hi : S.index v < 0
    · obtain ⟨m, hcan, hr⟩ := @registerParameterOMP_of_unassigned (home v) this v S hm hi
      rw [hr] at h
      cases h
      rw [canUse_iff] at hcan
      apply addParameterOMP_consistent home this v hS
      · intro w hw
        exact Function.update_noteq hw _ _
      · simp
      · right
        intro p hp
        rw [Function.update_same]
        exact hcan p hp
    · rw [registerParameterOMP_of_assigned hm (by omega)] at h
      cases h
      exact addParameterOMP_consistent home this v hS S.index (fun _ _ => rfl) (by omega)
        (Or.inl rfl)

theorem unregisterLocalOMP_consistent (home : VarId → Nat) (this : CompId) (v : VarId)
    {S : StateOMP} (hS : ConsistentOMP home S) :
    ConsistentOMP home (unregisterLocalOMP (home v) this v S) := by
  have key : ∀ a, 0 ≤ (unregisterLocalOMP (home v) this v S).index a →
      (unregisterLocalOMP (home v) this v S).index a = S.index a := by
    intro a h0
    by_cases ha : a = v
    · subst ha
      by_cases he : ((S.variableRegistry (home a)).entry a).erase this = ∅
      · rw [unregisterLocalOMP_index_of_empty (home a) this a S he] at h0
        omega
      · exact unregisterLocalOMP_index_of_ne_empty (home a) this a S he
    · exact unregisterLocalOMP_index_ne _ _ _ _ _ ha
  refine ⟨?_, ?_, ?_, ?_⟩
  · intro tid w hw
    rcases (unregisterLocalOMP_keys (home v) this v S tid w).mp hw with ⟨h1, h2⟩ | h
    · rw [h2, h1]
    · exact hS.keys_home tid w h
  · intro w hw
    by_cases hwv : w = v
    · subst hwv
      rw [unregisterLocalOMP_entry_self] at hw
      exact unregisterLocalOMP_index_of_empty (home w) this w S hw
    · rw [unregisterLocalOMP_entry_ne _ _ _ _ _ _ hwv] at hw
      rw [unregisterLocalOMP_index_ne _ _ _ _ _ hwv]
      exact hS.index_of_empty w hw
  · intro tid w hw
    by_cases hwv : w = v
    · subst hwv
      by_cases ht : tid = home w
      · subst ht
        rw [unregisterLocalOMP_entry_self] at hw
        rw [unregisterLocalOMP_index_of_ne_empty (home w) this w S hw]
        apply hS.index_of_ne_empty (home w) w
        intro he
        apply hw
        simp [he]
      · rw [unregisterLocalOMP_registry_of_other _ _ _ _ _ ht] at hw
        exact absurd (hS.keys_home tid w (mem_keys_of_entry_ne_empty _ _ hw)).symm ht
    · rw [unregisterLocalOMP_entry_ne _ _ _ _ _ _ hwv] at hw
      rw [unregisterLocalOMP_index_ne _ _ _ _ _ hwv]
      exact hS.index_of_ne_empty tid w hw
  · intro a b hab h0 he
    have ha := key a h0
    have hb := key b (by omega)
    exact hS.index_unique a b hab (by omega) (by omega)

theorem foldl_unregisterLocalOMP_consistent (home : VarId → Nat) (v : VarId)
    (l : List CompId) : ∀ S, ConsistentOMP home S →
    ConsistentOMP home (l.foldl (fun st c => unregisterLocalOMP (home v) c v st) S) := by
  induction l with
  | nil => intro S hS; exact hS
  | cons c l ih => intro S hS; exact ih _ (unregisterLocalOMP_consistent home c v hS)

theorem reachableOMP_consistent (home : VarId → Nat) {S : StateOMP}
    (h : ReachableOMP home S) : ConsistentOMP home S := by
  induction h with
  | init name flag obs => exact initialStateOMP_consistent home name flag obs
  | register this v n _ hreg ih => exact registerParameterOMP_consistent home ih hreg
  | unregister t v _ ih =>
    rw [(unregisterParameterOMP_eq_foldl (home v) v).1]
    exact foldl_unregisterLocalOMP_consistent home v _ _ ih


theorem reachableOMP_afterRegister (home : VarId → Nat) {S : StateOMP} (this : CompId)
    (v : VarId) (h : ReachableOMP home S) :
    ReachableOMP home (afterRegisterOMP (home v) this v S) := by
  obtain ⟨n, S', hr⟩ := registerParameterOMP_returns (home v) this v S
  have he : afterRegisterOMP (home v) this v S = S' := by simp [afterRegisterOMP, hr]
  rw [he]
  exact ReachableOMP.register this v n h hr

theorem exampleOMPApart_reachable : ReachableOMP exampleHome exampleOMPApart :=
  reachableOMP_afterRegister exampleHome 1 7
    (reachableOMP_afterRegister exampleHome 0 6
      (reachableOMP_afterRegister exampleHome 0 5 (ReachableOMP.init _ _ _)))

/-- C17, the claim as stated fails.  Variable 5 is registered in context 0 and
Variable 6 in context 1, and both hold index 0.  When context 1 registers
Variable 5 too, it is returned the index 0 that Variable 5 holds from context
0, and Variables 5 and 6 then share index 0 with non-empty entries in the
registry of context 1.  When context 1 unregisters Variable 5 again, the index
is released although the entry of context 0 is not empty. -/
theorem per_context_index_counterexample :
    (exampleOMPTwo.variableRegistry 0).entry 5 = {0} ∧
    (exampleOMPTwo.variableRegistry 1).entry 6 = {1} ∧
    exampleOMPTwo.index 5 = 0 ∧ exampleOMPTwo.index 6 = 0 ∧
    (registerParameterOMP 1 1 (some 5) exampleOMPTwo).map Prod.fst = some 0 ∧
    (exampleOMPShared.variableRegistry 1).entry 5 = {1} ∧
    (exampleOMPShared.variableRegistry 1).entry 6 = {1} ∧
    exampleOMPShared.index 5 = 0 ∧ exampleOMPShared.index 6 = 0 ∧
    ((unregisterParameterOMP 1 (some 5) (.mk 1 []) exampleOMPShared).variableRegistry 0).entry 5
      = {0} ∧
    (unregisterParameterOMP 1 (some 5) (.mk 1 []) exampleOMPShared).index 5 = -1 := by
  decide

/-- C17, amended: with `OMP_ON` the registry is per context and the index is
one member of the Variable, the same in every context.  For every sequence of
calls of `registerParameter` and `unregisterParameter`, one at a time, in
which every Variable is passed to calls of one context only, no two Variables
with a non-empty entry in the registry of a context share an index. -/
theorem index_uniqueness_per_context (home : VarId → Nat) (S : StateOMP)
    (h : ReachableOMP home S) (tid : Nat) (v w : VarId) (hne : v ≠ w)
    (hv : ((S.variableRegistry tid).entry v).Nonempty)
    (hw : ((S.variableRegistry tid).entry w).Nonempty) :
    S.index v ≠ S.index w := by
  have hc := reachableOMP_consistent home h
  have hv' := Finset.nonempty_iff_ne_empty.mp hv
  have hw' := Finset.nonempty_iff_ne_empty.mp hw
  have h1 := hc.keys_home tid v (mem_keys_of_entry_ne_empty _ _ hv')
  have h2 := hc.keys_home tid w (mem_keys_of_entry_ne_empty _ _ hw')
  intro he
  exact hne (hc.index_unique v w (h1.trans h2.symm) (hc.index_of_ne_empty tid v hv') he)

/-- Variables 5 and 6, both registered in context 0, hold different indices,
while Variable 7 is registered in context 1 alone. -/
theorem index_uniqueness_per_context_witness :
    ReachableOMP exampleHome exampleOMPApart ∧ (5 : VarId) ≠ 6 ∧
    ((exampleOMPApart.variableRegistry 0).entry 5).Nonempty ∧
    ((exampleOMPApart.variableRegistry 0).entry 6).Nonempty ∧
    exampleOMPApart.index 5 ≠ exampleOMPApart.index 6 :=
  ⟨exampleOMPApart_reachable, by decide, by decide, by decide,
   index_uniqueness_per_context exampleHome exampleOMPApart exampleOMPApart_reachable 0 5 6
     (by decide) (by decide) (by decide)⟩



end GooFit
